import Mathlib

/-!
# PG: kinematic state cache and collision constraints

A shallow embedding of `src/PGData.h` (the cache `PGData<Type>`) and of the
Jacobian rows assembled in `src/CollisionConstr.cpp`, followed by theorems about
them.

Conventions of the embedding

* `double` values are elements of a scalar type `α` that brings its own quotient and
  its own comparison `!=`: a field with decidable equality for statements over the
  reals (`ℚ` for evaluation, `ℝ` for analytic statements), and the doubles `Dbl`, with
  infinities and NaN, where the division by a zero norm matters. `scalar_t` values
  are elements of `β`.
* Eigen vectors and `std::vector`s are lists; reading or writing outside a
  container (undefined behaviour in C++) is the fault `Fault.outOfBounds`.
* `std::size_t` stamps and `int` sizes are natural numbers: a stamp is incremented
  once per write and no run performs `2^64` writes.
* External collaborators (RBDyn, SpaceVecAlg, SCD) appear only through the values
  they hand to the code.
-/

namespace pg

/-! ## Data model -/

/-- Joint kinds of `rbd::Joint::Type`. -/
inductive JointType where
  | Rev | Prism | Spherical | Planar | Cylindrical | Free | Fixed
  deriving DecidableEq, Repr

/-- What the cache reads of an `rbd::Joint`: its `type()` and `params()`. -/
structure Joint where
  type : JointType
  params : Nat
  deriving DecidableEq, Repr

/-- What the cache reads of an `rbd::MultiBody`: its joints and `nrBodies()`. -/
structure MultiBody where
  joints : List Joint
  nrBodies : Nat
  deriving DecidableEq, Repr

/-- The `mb.nrJoints()` accessor. -/
def MultiBody.nrJoints (mb : MultiBody) : Nat := mb.joints.length

/-- Modelled from the spec: `rbd::MultiBody::nrParams` is library code; the size of
the joint region is the mechanism's total joint-parameter count. -/
def MultiBody.nrParams (mb : MultiBody) : Nat := (mb.joints.map Joint.params).sum

/-- The test `mb_.joint(0).type() == rbd::Joint::Free` (a multibody has a root
joint; without one the test is taken to be false). -/
def MultiBody.firstJointFree (mb : MultiBody) : Bool :=
  match mb.joints with
  | [] => false
  | j :: _ => decide (j.type = JointType.Free)

/-- Three-vector `Eigen::Vector3<scalar_t>`. -/
structure Vec3 (β : Type) where
  x : β
  y : β
  z : β
  deriving DecidableEq, Repr

/-- Spatial force `sva::ForceVec<scalar_t>(couple, force)`. -/
structure ForceVec (β : Type) where
  couple : Vec3 β
  force : Vec3 β
  deriving DecidableEq, Repr

/-- The vector `Eigen::Vector3::Zero()`. -/
def Vec3.zero {β : Type} [Zero β] : Vec3 β := ⟨0, 0, 0⟩

/-- Componentwise sum of two three-vectors. -/
def Vec3.add {β : Type} [Add β] (a b : Vec3 β) : Vec3 β := ⟨a.x + b.x, a.y + b.y, a.z + b.z⟩

/-- The force `sva::ForceVec<scalar_t>(Eigen::Vector6<scalar_t>::Zero())`. -/
def ForceVec.zero {β : Type} [Zero β] : ForceVec β := ⟨Vec3.zero, Vec3.zero⟩

/-- The sum `ForceVec::operator+`. -/
def ForceVec.add {β : Type} [Add β] (a b : ForceVec β) : ForceVec β :=
  ⟨Vec3.add a.couple b.couple, Vec3.add a.force b.force⟩

/-- The template parameter `Type` and the library operations the cache calls:
the `construct_f` policy (vector size, slot, value), the transport
`sva::PTransform::transMul` and the square root taken by `Eigen`'s `norm()`. -/
structure Config (α β P : Type) where
  construct_f : Nat → Nat → α → β
  transMul : P → ForceVec β → ForceVec β
  sqrt : α → α

/-- The struct `PGData::ForceData`. -/
structure ForceData (α β P : Type) where
  bodyIndex : Nat
  points : List P
  forces : List (ForceVec β)
  mu : α
  deriving DecidableEq, Repr

/-- The struct `PGData::EllipseData`. -/
structure EllipseData (β : Type) where
  bodyIndex : Nat
  x : β
  y : β
  theta : β
  r1 : β
  r2 : β
  deriving DecidableEq, Repr

/-- Modelled from the spec: `FK.h` is not among the sources. The forward-kinematics
object is represented by the number of times `run` was called and the arguments of
its last `init` and `run`, of which its result (body world poses, parent-to-child
transforms) is a function. -/
structure FK (β : Type) where
  runs : Nat
  size : Nat
  q : Option (List (List β))
  deriving DecidableEq, Repr

/-- Modelled from the spec: the call `fk_.init(size)`. -/
def FK.init {β : Type} (fk : FK β) (size : Nat) : FK β := { fk with size := size }

/-- Modelled from the spec: the call `fk_.run(mb, q)`. -/
def FK.run {β : Type} (fk : FK β) (_mb : MultiBody) (q : List (List β)) : FK β :=
  { fk with runs := fk.runs + 1, q := some q }

/-- Modelled from the spec: `ID.h` is not among the sources. The inverse-dynamics
object is represented by the number of times `run` was called and the arguments
of the last call (forward kinematics and body forces). -/
structure ID (β : Type) where
  runs : Nat
  last : Option (FK β × List (ForceVec β))
  deriving DecidableEq, Repr

/-- Modelled from the spec: the call `id_.run(mb, fk.bodyPosW(), fk.parentToSon(), forcesB)`. -/
def ID.run {β : Type} (d : ID β) (_mb : MultiBody) (fk : FK β) (forcesB : List (ForceVec β)) :
    ID β :=
  { runs := d.runs + 1, last := some (fk, forcesB) }

/-- The private members of `PGData<Type>`. -/
structure PGData (α β P : Type) where
  mb_ : MultiBody
  gravity_ : Vec3 α
  x_ : List α
  q_ : List (List β)
  forceDatas_ : List (ForceData α β P)
  nrForcePoints_ : Nat
  forcesB_ : List (ForceVec β)
  ellipseDatas_ : List (EllipseData β)
  fk_ : FK β
  id_ : ID β
  xStamp_ : Nat
  idStamp_ : Nat
  deriving DecidableEq, Repr

/-- Ways a call can go wrong: the size assertion of `x`, or an access outside a
container. -/
inductive Fault where
  | sizeMismatch
  | outOfBounds
  deriving DecidableEq, Repr

/-- Outcome of a call on the cache: it returns with a new state, or stops at a
fault with the state it had reached. -/
inductive Result (σ : Type) where
  | done (s : σ)
  | failed (e : Fault) (s : σ)
  deriving DecidableEq, Repr

/-- The state carried by an outcome. -/
def Result.state {σ : Type} : Result σ → σ
  | Result.done s => s
  | Result.failed _ s => s

section Cache

variable {α β P : Type}

/-! ## Accessors -/

/-- The accessor `pbSize()`. -/
def PGData.pbSize (s : PGData α β P) : Nat :=
  s.mb_.nrParams + s.nrForcePoints_ * 3 + s.ellipseDatas_.length * 5

/-- The accessor `forceParamsBegin()`. -/
def PGData.forceParamsBegin (s : PGData α β P) : Nat := s.mb_.nrParams

/-- The accessor `ellipseParamsBegin()`. -/
def PGData.ellipseParamsBegin (s : PGData α β P) : Nat :=
  s.mb_.nrParams + s.nrForcePoints_ * 3

/-- The accessor `nrForcePoints()`. -/
def PGData.nrForcePoints (s : PGData α β P) : Nat := s.nrForcePoints_

/-- The accessor `xStamp()`. -/
def PGData.xStamp (s : PGData α β P) : Nat := s.xStamp_

/-! ## Constructor -/

/-- The constructor `PGData(mb, gravity)`: zero parameter vector of `nrParams`
entries, one coordinate array per joint sized by `params()`, zero body forces,
both stamps 1. -/
def PGData.ctor [Zero α] [Zero β] (mb : MultiBody) (gravity : Vec3 α) : PGData α β P :=
  { mb_ := mb
    gravity_ := gravity
    x_ := List.replicate mb.nrParams 0
    q_ := mb.joints.map fun j => List.replicate j.params 0
    forceDatas_ := []
    nrForcePoints_ := 0
    forcesB_ := List.replicate mb.nrBodies ForceVec.zero
    ellipseDatas_ := []
    fk_ := { runs := 0, size := 0, q := none }
    id_ := { runs := 0, last := none }
    xStamp_ := 1
    idStamp_ := 1 }

/-! ## update -/

/-- The write `q_[i][j] = b`, a fault when `i` or `j` is out of range. -/
def setCoord (q : List (List β)) (i j : Nat) (b : β) : Option (List (List β)) :=
  match q[i]? with
  | none => none
  | some row => if j < row.length then some (q.set i (row.set j b)) else none

/-- Inner loop of `update` over the parameters of joint `i` (lines 246-250):
`n` iterations remain, `j` is the loop counter. Returns `q_` and `xPos`. -/
def paramLoop (cfg : Config α β P) (x : List α) (i : Nat) :
    Nat → Nat → Nat → List (List β) → Option (List (List β) × Nat)
  | 0, _, xPos, q => some (q, xPos)
  | n + 1, j, xPos, q =>
    match x[xPos]? with
    | none => none
    | some v =>
      match setCoord q i j (cfg.construct_f x.length xPos v) with
      | none => none
      | some q1 => paramLoop cfg x i n (j + 1) (xPos + 1) q1

/-- Outer loop of `update` over the joints (lines 244-251), `i` the joint index. -/
def jointLoop (cfg : Config α β P) (x : List α) :
    List Joint → Nat → Nat → List (List β) → Option (List (List β) × Nat)
  | [], _, xPos, q => some (q, xPos)
  | jt :: rest, i, xPos, q =>
    match paramLoop cfg x i jt.params 0 xPos q with
    | none => none
    | some (q1, xPos1) => jointLoop cfg x rest (i + 1) xPos1 q1

/-- Loop of `update` over the forces of one descriptor (lines 260-271): `n`
iterations remain, `i` is the loop counter, `b` the descriptor's body index; the
local `zeroVec3` is the zero vector of `scalar_t`. Returns the descriptor's `forces`,
`forcesB_` and `xPos`. -/
def pointLoop [Zero β] [Add β] (cfg : Config α β P) (x : List α) (b : Nat) (points : List P) :
    Nat → Nat → Nat → List (ForceVec β) → List (ForceVec β) →
      Option (List (ForceVec β) × List (ForceVec β) × Nat)
  | 0, _, xPos, forces, forcesB => some (forces, forcesB, xPos)
  | n + 1, i, xPos, forces, forcesB =>
    match points[i]?, x[xPos]?, x[xPos + 1]?, x[xPos + 2]?, forcesB[b]? with
    | some pt, some a0, some a1, some a2, some cur =>
      let forceAd : Vec3 β :=
        ⟨cfg.construct_f x.length (xPos + 0) a0, cfg.construct_f x.length (xPos + 1) a1,
          cfg.construct_f x.length (xPos + 2) a2⟩
      let fv : ForceVec β := ⟨Vec3.zero, forceAd⟩
      pointLoop cfg x b points n (i + 1) (xPos + 3) (forces.set i fv)
        (forcesB.set b (ForceVec.add cur (cfg.transMul pt fv)))
    | _, _, _, _, _ => none

/-- Loop of `update` over the force descriptors (lines 257-272). Returns the
descriptors, `forcesB_` and `xPos`. -/
def forceLoop [Zero β] [Add β] (cfg : Config α β P) (x : List α) :
    List (ForceData α β P) → List (ForceVec β) → Nat →
      Option (List (ForceData α β P) × List (ForceVec β) × Nat)
  | [], forcesB, xPos => some ([], forcesB, xPos)
  | fd :: rest, forcesB, xPos =>
    if fd.bodyIndex < forcesB.length then
      match pointLoop cfg x fd.bodyIndex fd.points fd.forces.length 0 xPos fd.forces
          (forcesB.set fd.bodyIndex ForceVec.zero) with
      | none => none
      | some (forces1, forcesB1, xPos1) =>
        match forceLoop cfg x rest forcesB1 xPos1 with
        | none => none
        | some (rest1, forcesB2, xPos2) =>
          some ({ fd with forces := forces1 } :: rest1, forcesB2, xPos2)
    else none

/-- Loop of `update` over the ellipses (lines 274-282). Returns the ellipses and `xPos`. -/
def ellipseLoop (cfg : Config α β P) (x : List α) :
    List (EllipseData β) → Nat → Option (List (EllipseData β) × Nat)
  | [], xPos => some ([], xPos)
  | ed :: rest, xPos =>
    match x[xPos]?, x[xPos + 1]?, x[xPos + 2]?, x[xPos + 3]?, x[xPos + 4]? with
    | some a0, some a1, some a2, some a3, some a4 =>
      match ellipseLoop cfg x rest (xPos + 5) with
      | none => none
      | some (rest1, xPos1) =>
        some ({ ed with
                x := cfg.construct_f x.length (xPos + 0) a0
                y := cfg.construct_f x.length (xPos + 1) a1
                theta := cfg.construct_f x.length (xPos + 2) a2
                r1 := cfg.construct_f x.length (xPos + 3) a3
                r2 := cfg.construct_f x.length (xPos + 4) a4 } :: rest1, xPos1)
    | _, _, _, _, _ => none

/-- The body of `update()` together with the final value of its local `xPos`;
`none` when it reads or writes outside a container. -/
def PGData.updateAux [Zero β] [Add β] (cfg : Config α β P) (s : PGData α β P) :
    Option (PGData α β P × Nat) :=
  match jointLoop cfg s.x_ s.mb_.joints 0 0 s.q_ with
  | none => none
  | some (q1, xPos1) =>
    let fk1 := (s.fk_.init s.pbSize).run s.mb_ q1
    match forceLoop cfg s.x_ s.forceDatas_ s.forcesB_ xPos1 with
    | none => none
    | some (fds, forcesB1, xPos2) =>
      match ellipseLoop cfg s.x_ s.ellipseDatas_ xPos2 with
      | none => none
      | some (eds, xPos3) =>
        some ({ s with q_ := q1, fk_ := fk1, forceDatas_ := fds, forcesB_ := forcesB1,
                       ellipseDatas_ := eds }, xPos3)

/-- The method `update()`. -/
def PGData.update [Zero β] [Add β] (cfg : Config α β P) (s : PGData α β P) :
    Option (PGData α β P) :=
  (s.updateAux cfg).map Prod.fst

/-! ## x, forces, ellipses, id -/

/-- The statement `xNorm.head(4) /= xNorm.head(4).norm()`. The quotient is that of
the scalar type: the doubles `Dbl` give NaN for a zero entry over a zero norm, as
the code does; a field gives the real quotient for every non-zero norm. -/
def normalizeHead [Zero α] [Add α] [Mul α] [Div α] (sqrt : α → α) (v : List α) : List α :=
  (v.take 4).map (fun a => a / sqrt (((v.take 4).map fun c => c * c).sum)) ++ v.drop 4

/-- Lines 207-212 of `x`: compare with the stored vector by the operator `!=` of the
scalar type (for the doubles `Dbl` a NaN differs from every value, itself included),
and on a difference store, bump the write stamp and run `update()`. -/
def PGData.commit [BEq α] [Zero β] [Add β] (cfg : Config α β P) (s : PGData α β P)
    (xNorm : List α) : Result (PGData α β P) :=
  if s.x_ != xNorm then
    let s1 := { s with x_ := xNorm, xStamp_ := s.xStamp_ + 1 }
    match s1.update cfg with
    | some s2 => Result.done s2
    | none => Result.failed Fault.outOfBounds s1
  else Result.done s

/-- Lines 201-205 of `x`: the argument, with its head of four entries normalized
when the root joint is free. -/
def PGData.xNorm [Zero α] [Add α] [Mul α] [Div α] (cfg : Config α β P) (s : PGData α β P)
    (v : List α) : List α :=
  if s.mb_.firstJointFree then normalizeHead cfg.sqrt v else v

/-- The method `x(const Eigen::VectorXd&)`: the size assertion, the normalization
(taking `head(4)` of a shorter vector is an access out of bounds), then the
comparison and the write. -/
def PGData.x [BEq α] [Zero α] [Add α] [Mul α] [Div α] [Zero β] [Add β] (cfg : Config α β P)
    (s : PGData α β P) (v : List α) : Result (PGData α β P) :=
  if v.length ≠ s.x_.length then Result.failed Fault.sizeMismatch s
  else if s.mb_.firstJointFree = true ∧ v.length < 4 then Result.failed Fault.outOfBounds s
  else s.commit cfg (s.xNorm cfg v)

/-- The method `forces(std::vector<ForceData>)`. -/
def PGData.forces [Zero α] (s : PGData α β P) (fd : List (ForceData α β P)) : PGData α β P :=
  let s1 := { s with forceDatas_ := fd
                     nrForcePoints_ :=
                       fd.foldl (fun (n : Nat) (d : ForceData α β P) => n + d.points.length) 0 }
  { s1 with x_ := List.replicate s1.pbSize 0, xStamp_ := s1.xStamp_ + 1 }

/-- The method `ellipses(std::vector<EllipseData>)`. -/
def PGData.ellipses [Zero α] (s : PGData α β P) (ed : List (EllipseData β)) : PGData α β P :=
  let s1 := { s with ellipseDatas_ := ed }
  { s1 with x_ := List.replicate s1.pbSize 0, xStamp_ := s1.xStamp_ + 1 }

/-- The method `id()`; the returned reference is the member `id_` of the new state. -/
def PGData.id (s : PGData α β P) : PGData α β P :=
  if s.xStamp_ ≠ s.idStamp_ then
    { s with id_ := s.id_.run s.mb_ s.fk_ s.forcesB_, idStamp_ := s.xStamp_ }
  else s

/-! ## Reachable states and their invariant -/

/-- States reachable from the constructor by calls of `x`, `forces`, `ellipses` and
`id` with arbitrary arguments. A call of `x` that stops at the size assertion leaves
the state as it is, so only calls of `x` that return add states; a call that runs out
of bounds has no defined successor. -/
inductive Reachable [BEq α] [Zero α] [Add α] [Mul α] [Div α] [Zero β] [Add β]
    (cfg : Config α β P)
    (mb : MultiBody) (g : Vec3 α) : PGData α β P → Prop where
  | ctor : Reachable cfg mb g (PGData.ctor mb g)
  | x {s s1 : PGData α β P} (v : List α) :
      Reachable cfg mb g s → s.x cfg v = Result.done s1 → Reachable cfg mb g s1
  | forces {s : PGData α β P} (fd : List (ForceData α β P)) :
      Reachable cfg mb g s → Reachable cfg mb g (s.forces fd)
  | ellipses {s : PGData α β P} (ed : List (EllipseData β)) :
      Reachable cfg mb g s → Reachable cfg mb g (s.ellipses ed)
  | id {s : PGData α β P} : Reachable cfg mb g s → Reachable cfg mb g s.id

/-- Total number of application points of a descriptor list. -/
def totalPoints (fds : List (ForceData α β P)) : Nat :=
  (fds.map fun d => d.points.length).sum

/-- Shape of the members of a cache over the multibody `mb`. -/
structure Inv (mb : MultiBody) (s : PGData α β P) : Prop where
  mb_eq : s.mb_ = mb
  x_len : s.x_.length = s.pbSize
  q_shape : s.q_.map List.length = mb.joints.map Joint.params
  forcesB_len : s.forcesB_.length = mb.nrBodies
  nrPoints : s.nrForcePoints_ = totalPoints s.forceDatas_
  stamps : s.idStamp_ ≤ s.xStamp_

/-- A force descriptor that `update()` can process: one force slot per application
point and a body index of the multibody. -/
def ForceData.WellFormed (nrBodies : Nat) (fd : ForceData α β P) : Prop :=
  fd.forces.length = fd.points.length ∧ fd.bodyIndex < nrBodies

/-- A multibody whose root joint, when free, carries the quaternion head. -/
def MultiBody.WellFormed (mb : MultiBody) : Prop :=
  mb.firstJointFree = true → 4 ≤ mb.nrParams

/-! ## The derived state as the claims describe it -/

/-- The construct-transform of the joint region of a vector, in the words of claim
C2: joint by joint, the joint's consecutive slots passed through `construct_f`;
`pos` is the first slot of the first joint of the list. -/
def jointRegionCoords (cfg : Config α β P) (x : List α) : List Joint → Nat → List (List β)
  | [], _ => []
  | jt :: rest, pos =>
    List.zipWith (fun k a => cfg.construct_f x.length k a) (List.range' pos jt.params)
        ((x.drop pos).take jt.params)
      :: jointRegionCoords cfg x rest (pos + jt.params)

/-- Sum of the transported forces of the application points of one descriptor, in
the words of claim C8: each point contributes the force with zero first part and
its 3 consecutive slots as second part; `pos` is the first slot of the first point. -/
def pointForces [Zero α] [Zero β] [Add β] (cfg : Config α β P) (x : List α) :
    List P → Nat → ForceVec β
  | [], _ => ForceVec.zero
  | pt :: pts, pos =>
    ForceVec.add
      (cfg.transMul pt
        ⟨Vec3.zero, ⟨cfg.construct_f x.length pos (x.getD pos 0),
          cfg.construct_f x.length (pos + 1) (x.getD (pos + 1) 0),
          cfg.construct_f x.length (pos + 2) (x.getD (pos + 2) 0)⟩⟩)
      (pointForces cfg x pts (pos + 3))

/-- Net force on body `b`, in the words of claim C8: the sum over every descriptor
whose `bodyIndex` is `b` of the forces of its application points; zero for a body
that no descriptor names. `pos` is the first slot of the first descriptor. -/
def netBodyForce [Zero α] [Zero β] [Add β] (cfg : Config α β P) (x : List α) (b : Nat) :
    List (ForceData α β P) → Nat → ForceVec β
  | [], _ => ForceVec.zero
  | fd :: rest, pos =>
    if fd.bodyIndex = b then
      ForceVec.add (pointForces cfg x fd.points pos)
        (netBodyForce cfg x b rest (pos + 3 * fd.points.length))
    else netBodyForce cfg x b rest (pos + 3 * fd.points.length)

end Cache

/-! ## Doubles with the IEEE special values -/

section Doubles

variable {α : Type}

/-- A `double` as far as the quotient and the comparison in `x` need it: a real
value, an infinity or NaN. Rounding and the sign of zero are not represented (a zero
divisor is `+0`, as a norm is). -/
inductive Dbl (α : Type) where
  | val (a : α)
  | posInf
  | negInf
  | nan
  deriving DecidableEq, Repr

/-- The sum of two doubles: NaN propagates and opposite infinities give NaN. -/
def Dbl.add [Add α] : Dbl α → Dbl α → Dbl α
  | Dbl.val a, Dbl.val b => Dbl.val (a + b)
  | Dbl.val _, Dbl.posInf => Dbl.posInf
  | Dbl.val _, Dbl.negInf => Dbl.negInf
  | Dbl.posInf, Dbl.val _ => Dbl.posInf
  | Dbl.negInf, Dbl.val _ => Dbl.negInf
  | Dbl.posInf, Dbl.posInf => Dbl.posInf
  | Dbl.negInf, Dbl.negInf => Dbl.negInf
  | Dbl.posInf, Dbl.negInf => Dbl.nan
  | Dbl.negInf, Dbl.posInf => Dbl.nan
  | Dbl.nan, _ => Dbl.nan
  | _, Dbl.nan => Dbl.nan

/-- The infinity with the sign of `a`, NaN for `a = 0`: the value of `a * ∞` and of
`a / 0`. -/
def Dbl.signedInf [LinearOrderedField α] (a : α) : Dbl α :=
  if a = 0 then Dbl.nan else if 0 < a then Dbl.posInf else Dbl.negInf

/-- The product of two doubles: NaN propagates and `0 * ∞` is NaN. -/
def Dbl.mul [LinearOrderedField α] : Dbl α → Dbl α → Dbl α
  | Dbl.val a, Dbl.val b => Dbl.val (a * b)
  | Dbl.val a, Dbl.posInf => Dbl.signedInf a
  | Dbl.val a, Dbl.negInf => Dbl.signedInf (-a)
  | Dbl.posInf, Dbl.val b => Dbl.signedInf b
  | Dbl.negInf, Dbl.val b => Dbl.signedInf (-b)
  | Dbl.posInf, Dbl.posInf => Dbl.posInf
  | Dbl.negInf, Dbl.negInf => Dbl.posInf
  | Dbl.posInf, Dbl.negInf => Dbl.negInf
  | Dbl.negInf, Dbl.posInf => Dbl.negInf
  | Dbl.nan, _ => Dbl.nan
  | _, Dbl.nan => Dbl.nan

/-- The quotient of two doubles: `0 / 0` and `∞ / ∞` are NaN, a non-zero value over
zero is an infinity, a value over an infinity is zero. -/
def Dbl.div [LinearOrderedField α] : Dbl α → Dbl α → Dbl α
  | Dbl.val a, Dbl.val b => if b = 0 then Dbl.signedInf a else Dbl.val (a / b)
  | Dbl.val _, Dbl.posInf => Dbl.val 0
  | Dbl.val _, Dbl.negInf => Dbl.val 0
  | Dbl.posInf, Dbl.val b => if b < 0 then Dbl.negInf else Dbl.posInf
  | Dbl.negInf, Dbl.val b => if b < 0 then Dbl.posInf else Dbl.negInf
  | Dbl.posInf, Dbl.posInf => Dbl.nan
  | Dbl.negInf, Dbl.negInf => Dbl.nan
  | Dbl.posInf, Dbl.negInf => Dbl.nan
  | Dbl.negInf, Dbl.posInf => Dbl.nan
  | Dbl.nan, _ => Dbl.nan
  | _, Dbl.nan => Dbl.nan

/-- The comparison `==` of two doubles: NaN equals nothing, itself included. -/
def Dbl.beq [DecidableEq α] : Dbl α → Dbl α → Bool
  | Dbl.val a, Dbl.val b => decide (a = b)
  | Dbl.posInf, Dbl.posInf => true
  | Dbl.negInf, Dbl.negInf => true
  | _, _ => false

/-- The function `std::sqrt` on doubles, `r` being the square root of real values. -/
def Dbl.sqrt [LinearOrderedField α] (r : α → α) : Dbl α → Dbl α
  | Dbl.val a => if a < 0 then Dbl.nan else Dbl.val (r a)
  | Dbl.posInf => Dbl.posInf
  | Dbl.negInf => Dbl.nan
  | Dbl.nan => Dbl.nan

instance [Zero α] : Zero (Dbl α) := ⟨Dbl.val 0⟩

instance [Add α] : Add (Dbl α) := ⟨Dbl.add⟩

instance [LinearOrderedField α] : Mul (Dbl α) := ⟨Dbl.mul⟩

instance [LinearOrderedField α] : Div (Dbl α) := ⟨Dbl.div⟩

instance (priority := high) [DecidableEq α] : BEq (Dbl α) := ⟨Dbl.beq⟩

end Doubles

/-! ## Collision constraints (`CollisionConstr.cpp`) -/

section Collision

variable {α : Type}

/-- A dense `Eigen::MatrixXd`, as the list of its rows. -/
abbrev DenseMatrix (α : Type) : Type := List (List α)

/-- An `Eigen::SparseMatrix<double, RowMajor>`, as its coefficient function. -/
abbrev SparseMatrix (α : Type) : Type := Nat → Nat → α

/-- The coefficient `m(r, c)` of a dense matrix. -/
def DenseMatrix.coeff [Zero α] (m : DenseMatrix α) (r c : Nat) : α := (m.getD r []).getD c 0

/-- The difference of two three-vectors. -/
def Vec3.sub [Sub α] (a b : Vec3 α) : Vec3 α := ⟨a.x - b.x, a.y - b.y, a.z - b.z⟩

/-- The squared Euclidean norm of a three-vector. -/
def Vec3.normSq [Add α] [Mul α] (d : Vec3 α) : α := d.x * d.x + d.y * d.y + d.z * d.z

/-- The value `std::copysign(2., dist)`. -/
def copysign2 [LinearOrderedField α] (dist : α) : α := if dist < 0 then -2 else 2

/-- The dense row `coef*dist3d.transpose()*jacMat.block(3, 0, 3, dof)`: entry `j`
pairs `coef * dist3d` with column `j` of rows 3 to 5 (the linear-velocity block). -/
def gradRow [Field α] (coef : α) (dist3d : Vec3 α) (jacMat : DenseMatrix α) (dof : Nat) :
    List α :=
  (List.range dof).map fun j =>
    coef * dist3d.x * jacMat.coeff 3 j + coef * dist3d.y * jacMat.coeff 4 j
      + coef * dist3d.z * jacMat.coeff 5 j

/-- What the constraints use of an `rbd::Jacobian` at the current configuration and
evaluation point: `dof()`, the matrix returned by `jacobian(mb, mbc)` (6 rows,
`dof()` columns) and, for the assembly helper, the column of the joint region that
each local degree of freedom occupies. -/
structure BodyJacobian (α : Type) where
  dof : Nat
  jacobian : DenseMatrix α
  cols : List Nat

/-- Modelled from the spec: `FillSparse.h` is not among the sources. The assembly
helper `updateFullJacobianSparse` scatters a dense row over a body's local degrees
of freedom into the body's global columns of row `pos.1`, offset by the start
`pos.2` of the joint region, one coefficient write after the other. -/
def updateFullJacobianSparse (cols : List Nat) (jacMat : List α) (full : SparseMatrix α)
    (pos : Nat × Nat) : SparseMatrix α :=
  (cols.zip jacMat).foldl
    (fun m ka => fun r c => if r = pos.1 ∧ c = pos.2 + ka.1 then ka.2 else m r c) full

/-- Modelled from the spec: the assembly helper `fullJacobianSparse`, which scatters
into the output matrix itself. -/
def fullJacobianSparse (cols : List Nat) (jacMat : List α) (jac : SparseMatrix α)
    (pos : Nat × Nat) : SparseMatrix α :=
  updateFullJacobianSparse cols jacMat jac pos

/-- One `EnvCollisionConstr::CollisionData` at the current configuration: the result
`(dist, T_0_p, pEnv)` of `closestPoints(cd.pair)` and the body Jacobian set at the
body witness point. -/
structure EnvCollisionData (α : Type) where
  dist : α
  T_0_p : Vec3 α
  pEnv : Vec3 α
  jac : BodyJacobian α

/-- The dense row `cd.jacMat` that `EnvCollisionConstr::impl_jacobian` computes for
one pair (lines 142-148). -/
def EnvCollisionConstr.jacMat [LinearOrderedField α] (cd : EnvCollisionData α) : List α :=
  gradRow (copysign2 cd.dist) (cd.T_0_p.sub cd.pEnv) cd.jac.jacobian cd.jac.dof

/-- The loop of `EnvCollisionConstr::impl_jacobian`, `i` the row of the first pair. -/
def EnvCollisionConstr.impl_jacobian [LinearOrderedField α] (qParamsBegin : Nat) :
    List (EnvCollisionData α) → Nat → SparseMatrix α → SparseMatrix α
  | [], _, jac => jac
  | cd :: rest, i, jac =>
    EnvCollisionConstr.impl_jacobian qParamsBegin rest (i + 1)
      (fullJacobianSparse cd.jac.cols (EnvCollisionConstr.jacMat cd) jac (i, qParamsBegin))

/-- The method `EnvCollisionConstr::impl_compute`: one `distance(cd.pair)` per pair. -/
def EnvCollisionConstr.impl_compute (cols : List (EnvCollisionData α)) : List α :=
  cols.map fun cd => cd.dist

/-- One `SelfCollisionConstr::CollisionData` at the current configuration: the
result `(dist, T_0_p1, T_0_p2)` of `closestPoints(cd.pair)`, the two body Jacobians
and the two full-width buffers. -/
structure SelfCollisionData (α : Type) where
  dist : α
  T_0_p1 : Vec3 α
  T_0_p2 : Vec3 α
  jac1 : BodyJacobian α
  jac1MatFull : SparseMatrix α
  jac2 : BodyJacobian α
  jac2MatFull : SparseMatrix α

/-- The dense row `cd.jac1Mat` of `SelfCollisionConstr::impl_jacobian` (line 249). -/
def SelfCollisionConstr.jac1Mat [LinearOrderedField α] (cd : SelfCollisionData α) : List α :=
  gradRow (copysign2 cd.dist) (cd.T_0_p1.sub cd.T_0_p2) cd.jac1.jacobian cd.jac1.dof

/-- The dense row `cd.jac2Mat` of `SelfCollisionConstr::impl_jacobian` (line 250). -/
def SelfCollisionConstr.jac2Mat [LinearOrderedField α] (cd : SelfCollisionData α) : List α :=
  gradRow (copysign2 cd.dist) (cd.T_0_p1.sub cd.T_0_p2) cd.jac2.jacobian cd.jac2.dof

/-- The body of the loop of `SelfCollisionConstr::impl_jacobian` for pair `i`
(lines 238-254): both buffers are refreshed and `jac += jac1MatFull - jac2MatFull`. -/
def SelfCollisionConstr.pairJacobian [LinearOrderedField α] (qParamsBegin i : Nat)
    (cd : SelfCollisionData α) (jac : SparseMatrix α) :
    SparseMatrix α × SelfCollisionData α :=
  let full1 := updateFullJacobianSparse cd.jac1.cols (SelfCollisionConstr.jac1Mat cd)
    cd.jac1MatFull (i, qParamsBegin)
  let full2 := updateFullJacobianSparse cd.jac2.cols (SelfCollisionConstr.jac2Mat cd)
    cd.jac2MatFull (i, qParamsBegin)
  (fun r c => jac r c + (full1 r c - full2 r c),
    { cd with jac1MatFull := full1, jac2MatFull := full2 })

/-- The loop of `SelfCollisionConstr::impl_jacobian`, `i` the row of the first pair.
Returns the output matrix and the pairs with their refreshed buffers. -/
def SelfCollisionConstr.impl_jacobian [LinearOrderedField α] (qParamsBegin : Nat) :
    List (SelfCollisionData α) → Nat → SparseMatrix α →
      SparseMatrix α × List (SelfCollisionData α)
  | [], _, jac => (jac, [])
  | cd :: rest, i, jac =>
    let step := SelfCollisionConstr.pairJacobian qParamsBegin i cd jac
    let tail := SelfCollisionConstr.impl_jacobian qParamsBegin rest (i + 1) step.1
    (tail.1, step.2 :: tail.2)

/-- The value written last at column `c` by the coefficient writes `(k, a)` at columns
`c0 + k`, if any. -/
def lastWrite (c c0 : Nat) : List (Nat × α) → Option α
  | [] => none
  | ka :: rest =>
    match lastWrite c c0 rest with
    | some b => some b
    | none => if c = c0 + ka.1 then some ka.2 else none

/-- The scatter of claim C7: the full-width row that holds a body's dense row at that
body's global columns and zero elsewhere. -/
def scatter [Zero α] (cols : List Nat) (c0 : Nat) (jacMat : List α) : Nat → α :=
  fun c => (lastWrite c c0 (cols.zip jacMat)).getD 0

/-- Entry `k` of the dense row of one body in the words of claim C7, written out:
`copysign(2, dist) * (p1 - p2)ᵀ * J_lin` at column `k`, where `J_lin` is rows 3 to 5
of the body Jacobian and `copysign(2, dist)` is -2 for a negative `dist`, else 2. -/
def claimedRowEntry [LinearOrderedField α] (dist : α) (p1 p2 : Vec3 α)
    (jacobian : DenseMatrix α) (k : Nat) : α :=
  (if dist < 0 then -2 else 2)
    * ((p1.x - p2.x) * (jacobian.getD 3 []).getD k 0
      + (p1.y - p2.y) * (jacobian.getD 4 []).getD k 0
      + (p1.z - p2.z) * (jacobian.getD 5 []).getD k 0)

/-- The dense row of one body in the words of claim C7: one entry per local degree
of freedom. -/
def claimedRow [LinearOrderedField α] (dist : α) (p1 p2 : Vec3 α) (jacobian : DenseMatrix α)
    (dof : Nat) : List α :=
  (List.range dof).map (claimedRowEntry dist p1 p2 jacobian)

/-- A full-width buffer of pair `i` that holds entries only in row `i`, at the
columns of its body; so is the empty buffer of the constructor. -/
def BufferShape [Zero α] (i c0 : Nat) (cols : List Nat) (full : SparseMatrix α) : Prop :=
  ∀ r c, (r ≠ i ∨ ∀ k ∈ cols, c ≠ c0 + k) → full r c = 0

/-- Shape of pair `i` of a self-collision constraint: each buffer holds entries only
in row `i` at the columns of its body, and each body has one column per local
degree of freedom. -/
def PairShape [Zero α] (c0 i : Nat) (cd : SelfCollisionData α) : Prop :=
  BufferShape i c0 cd.jac1.cols cd.jac1MatFull ∧ BufferShape i c0 cd.jac2.cols cd.jac2MatFull ∧
    cd.jac1.cols.length = cd.jac1.dof ∧ cd.jac2.cols.length = cd.jac2.dof

/-- The residual as the comments of `distance` and `closestPoints` describe it: the
signed squared distance of the witness points, `sgn` being 1 for separated hulls and
-1 for overlapping ones. -/
def signedSquaredDistance [Field α] (sgn : α) (p e : Vec3 α) : α := sgn * (p.sub e).normSq

/-- The residual as claim C3 describes it: the signed distance, whose magnitude is
the distance of the witness points. -/
def signedDistance [Field α] (sqrt : α → α) (sgn : α) (p e : Vec3 α) : α :=
  sgn * sqrt ((p.sub e).normSq)

end Collision

/-! ## Concrete instances used to evaluate the model -/

/-- The plain numeric policy over the rationals: `construct_f` stores the value,
application points carry the identity transform, exact square root of squares. -/
def plainConfig : Config ℚ ℚ Unit :=
  { construct_f := fun _ _ v => v, transMul := fun _ f => f, sqrt := Rat.sqrt }

/-- A fixed-base mechanism with two bodies and one joint of one parameter. -/
def oneJointArm : MultiBody := { joints := [⟨JointType.Rev, 1⟩], nrBodies := 2 }

/-- The cache of `oneJointArm` as constructed. -/
def armCache : PGData ℚ ℚ Unit := PGData.ctor oneJointArm ⟨0, 0, 0⟩

/-- A force descriptor on body `b` with one application point and one force slot. -/
def onePointForce (b : Nat) : ForceData ℚ ℚ Unit :=
  { bodyIndex := b, points := [()], forces := [ForceVec.zero], mu := 1 }

/-- A force descriptor with a force slot and no application point. -/
def forceWithoutPoint : ForceData ℚ ℚ Unit :=
  { bodyIndex := 0, points := [], forces := [ForceVec.zero], mu := 1 }

/-- A force descriptor with an application point and no force slot. -/
def pointWithoutForce : ForceData ℚ ℚ Unit :=
  { bodyIndex := 0, points := [()], forces := [], mu := 1 }

/-- An ellipse on body 0 with all parameters zero. -/
def zeroEllipse : EllipseData ℚ :=
  { bodyIndex := 0, x := 0, y := 0, theta := 0, r1 := 0, r2 := 0 }

/-- A floating-base mechanism: one body on a free root joint of 7 parameters. -/
def floatingBase : MultiBody := { joints := [⟨JointType.Free, 7⟩], nrBodies := 1 }

/-- The plain numeric policy over the doubles with rational values: `construct_f`
stores the value, application points carry the identity transform. -/
def ieeeConfig : Config (Dbl ℚ) (Dbl ℚ) Unit :=
  { construct_f := fun _ _ v => v, transMul := fun _ f => f, sqrt := Dbl.sqrt Rat.sqrt }

/-- The cache of `floatingBase` over the doubles, as constructed. -/
def floatingCache : PGData (Dbl ℚ) (Dbl ℚ) Unit := PGData.ctor floatingBase ⟨0, 0, 0⟩

/-- Two self-collision pairs of a three-joint mechanism as constructed (empty
buffers): in both, body 1 moves with joints 0 and 1, body 2 with joints 0 and 2. The
hulls of pair 0 are separated (`dist > 0`), those of pair 1 overlap (`dist < 0`). -/
def examplePairs : List (SelfCollisionData ℚ) :=
  [{ dist := 1, T_0_p1 := ⟨2, 1, 0⟩, T_0_p2 := ⟨1, 3, 0⟩
     jac1 := { dof := 2, cols := [0, 1]
               jacobian := [[0, 0], [0, 0], [0, 0], [3, 2], [1, 0], [0, 0]] }
     jac1MatFull := fun _ _ => 0
     jac2 := { dof := 2, cols := [0, 2]
               jacobian := [[0, 0], [0, 0], [0, 0], [1, 5], [0, 1], [0, 0]] }
     jac2MatFull := fun _ _ => 0 },
   { dist := -1, T_0_p1 := ⟨0, 1, 1⟩, T_0_p2 := ⟨0, 3, 0⟩
     jac1 := { dof := 2, cols := [0, 1]
               jacobian := [[0, 0], [0, 0], [0, 0], [0, 0], [1, 1], [1, 0]] }
     jac1MatFull := fun _ _ => 0
     jac2 := { dof := 2, cols := [0, 2]
               jacobian := [[0, 0], [0, 0], [0, 0], [0, 0], [4, 1], [0, 3]] }
     jac2MatFull := fun _ _ => 0 }]

/-! # Theorems -/

section CacheLemmas

variable {α β P : Type}

theorem foldl_points_eq (fds : List (ForceData α β P)) (n : Nat) :
    fds.foldl (fun (n : Nat) (d : ForceData α β P) => n + d.points.length) n
      = n + totalPoints fds := by
  induction fds generalizing n with
  | nil => simp [totalPoints]
  | cons d rest ih =>
    simp only [List.foldl_cons, ih, totalPoints, List.map_cons, List.sum_cons]
    omega

theorem list_set_same {γ : Type} (l : List γ) (i : Nat) (a : γ) (h : l[i]? = some a) :
    l.set i a = l := by
  apply List.ext_getElem?
  intro k
  rw [List.getElem?_set']
  split
  · subst i; simp [h]
  · rfl

theorem setCoord_shape {q q1 : List (List β)} {i j : Nat} {b : β}
    (h : setCoord q i j b = some q1) : q1.map List.length = q.map List.length := by
  unfold setCoord at h
  split at h
  · exact absurd h (by simp)
  · rename_i row hrow
    split at h
    · cases h
      rw [List.map_set, List.length_set]
      apply list_set_same
      simp [hrow]
    · exact absurd h (by simp)

theorem setCoord_some {q : List (List β)} {i j : Nat} (b : β) {row : List β}
    (hrow : q[i]? = some row) (hj : j < row.length) :
    ∃ q1, setCoord q i j b = some q1 := by
  unfold setCoord
  simp [hrow, hj]

theorem paramLoop_spec (cfg : Config α β P) (x : List α) (i : Nat) :
    ∀ (n j xPos : Nat) (q q1 : List (List β)) (xPos1 : Nat),
      paramLoop cfg x i n j xPos q = some (q1, xPos1) →
        q1.map List.length = q.map List.length ∧ xPos1 = xPos + n := by
  intro n
  induction n with
  | zero =>
    intro j xPos q q1 xPos1 h
    simp only [paramLoop, Option.some.injEq, Prod.mk.injEq] at h
    obtain ⟨rfl, rfl⟩ := h
    exact ⟨rfl, rfl⟩
  | succ n ih =>
    intro j xPos q q1 xPos1 h
    unfold paramLoop at h
    split at h
    · exact absurd h (by simp)
    · split at h
      · exact absurd h (by simp)
      · rename_i q2 hq2
        obtain ⟨h1, h2⟩ := ih _ _ _ _ _ h
        refine ⟨h1.trans (setCoord_shape hq2), ?_⟩
        omega

theorem paramLoop_some (cfg : Config α β P) (x : List α) (i : Nat) :
    ∀ (n j xPos : Nat) (q : List (List β)) (m : Nat), xPos + n ≤ x.length →
      (q.map List.length)[i]? = some m → j + n ≤ m →
      ∃ q1, paramLoop cfg x i n j xPos q = some (q1, xPos + n) := by
  intro n
  induction n with
  | zero =>
    intro j xPos q m _ _ _
    exact ⟨q, rfl⟩
  | succ n ih =>
    intro j xPos q m hx hq hj
    have hlt : xPos < x.length := by omega
    rw [List.getElem?_map] at hq
    cases hrow : q[i]? with
    | none => rw [hrow] at hq; exact absurd hq (by simp)
    | some row =>
      rw [hrow] at hq
      simp only [Option.map_some', Option.some.injEq] at hq
      obtain ⟨q2, hq2⟩ := setCoord_some (cfg.construct_f x.length xPos x[xPos]) hrow
        (show j < row.length by omega)
      have hshape := setCoord_shape hq2
      obtain ⟨q1, hq1⟩ := ih (j + 1) (xPos + 1) q2 m (by omega)
        (by rw [hshape, List.getElem?_map, hrow]; simp [hq]) (by omega)
      refine ⟨q1, ?_⟩
      unfold paramLoop
      rw [List.getElem?_eq_getElem hlt]
      simp only [hq2]
      rw [hq1]
      congr 2
      omega

theorem jointLoop_spec (cfg : Config α β P) (x : List α) :
    ∀ (joints : List Joint) (i xPos : Nat) (q q1 : List (List β)) (xPos1 : Nat),
      jointLoop cfg x joints i xPos q = some (q1, xPos1) →
        q1.map List.length = q.map List.length ∧
          xPos1 = xPos + (joints.map Joint.params).sum := by
  intro joints
  induction joints with
  | nil =>
    intro i xPos q q1 xPos1 h
    simp only [jointLoop, Option.some.injEq, Prod.mk.injEq] at h
    obtain ⟨rfl, rfl⟩ := h
    exact ⟨rfl, by simp⟩
  | cons jt rest ih =>
    intro i xPos q q1 xPos1 h
    unfold jointLoop at h
    split at h
    · exact absurd h (by simp)
    · rename_i q2 xPos2 h2
      obtain ⟨a1, a2⟩ := paramLoop_spec cfg x i _ _ _ _ _ _ h2
      obtain ⟨b1, b2⟩ := ih _ _ _ _ _ h
      refine ⟨b1.trans a1, ?_⟩
      simp only [List.map_cons, List.sum_cons]
      omega

theorem jointLoop_some (cfg : Config α β P) (x : List α) :
    ∀ (joints : List Joint) (i xPos : Nat) (q : List (List β)) (pre : List Nat),
      xPos + (joints.map Joint.params).sum ≤ x.length →
      q.map List.length = pre ++ joints.map Joint.params → pre.length = i →
      ∃ q1, jointLoop cfg x joints i xPos q = some (q1, xPos + (joints.map Joint.params).sum) := by
  intro joints
  induction joints with
  | nil =>
    intro i xPos q pre _ _ _
    exact ⟨q, by simp [jointLoop]⟩
  | cons jt rest ih =>
    intro i xPos q pre hx hq hi
    simp only [List.map_cons, List.sum_cons] at hx hq
    obtain ⟨q2, hq2⟩ := paramLoop_some cfg x i jt.params 0 xPos q jt.params (by omega)
      (by rw [hq, ← hi, List.getElem?_append_right (Nat.le_refl _)]; simp) (by omega)
    obtain ⟨a1, _⟩ := paramLoop_spec cfg x i _ _ _ _ _ _ hq2
    obtain ⟨q1, hq1⟩ := ih (i + 1) (xPos + jt.params) q2 (pre ++ [jt.params]) (by omega)
      (by rw [a1, hq]; simp) (by simp [hi])
    refine ⟨q1, ?_⟩
    unfold jointLoop
    simp only [hq2]
    rw [hq1]
    simp only [List.map_cons, List.sum_cons]
    congr 2
    omega

theorem pointLoop_spec [Zero β] [Add β] (cfg : Config α β P) (x : List α) (b : Nat)
    (points : List P) :
    ∀ (n i xPos : Nat) (forces forcesB forces1 forcesB1 : List (ForceVec β)) (xPos1 : Nat),
      pointLoop cfg x b points n i xPos forces forcesB = some (forces1, forcesB1, xPos1) →
        forces1.length = forces.length ∧ forcesB1.length = forcesB.length ∧
          xPos1 = xPos + 3 * n := by
  intro n
  induction n with
  | zero =>
    intro i xPos forces forcesB forces1 forcesB1 xPos1 h
    simp only [pointLoop, Option.some.injEq, Prod.mk.injEq] at h
    obtain ⟨rfl, rfl, rfl⟩ := h
    exact ⟨rfl, rfl, rfl⟩
  | succ n ih =>
    intro i xPos forces forcesB forces1 forcesB1 xPos1 h
    unfold pointLoop at h
    split at h
    · obtain ⟨h1, h2, h3⟩ := ih _ _ _ _ _ _ _ h
      simp only [List.length_set] at h1 h2
      exact ⟨h1, h2, by omega⟩
    · exact absurd h (by simp)

theorem pointLoop_some [Zero β] [Add β] (cfg : Config α β P) (x : List α) (b : Nat)
    (points : List P) :
    ∀ (n i xPos : Nat) (forces forcesB : List (ForceVec β)),
      i + n ≤ points.length → xPos + 3 * n ≤ x.length → b < forcesB.length →
      ∃ r, pointLoop cfg x b points n i xPos forces forcesB = some r := by
  intro n
  induction n with
  | zero =>
    intro i xPos forces forcesB _ _ _
    exact ⟨_, rfl⟩
  | succ n ih =>
    intro i xPos forces forcesB hi hx hb
    unfold pointLoop
    rw [List.getElem?_eq_getElem (show i < points.length by omega),
      List.getElem?_eq_getElem (show xPos < x.length by omega),
      List.getElem?_eq_getElem (show xPos + 1 < x.length by omega),
      List.getElem?_eq_getElem (show xPos + 2 < x.length by omega),
      List.getElem?_eq_getElem hb]
    exact ih _ _ _ _ (by omega) (by omega) (by simpa using hb)

theorem forceLoop_spec [Zero β] [Add β] (cfg : Config α β P) (x : List α) :
    ∀ (fds : List (ForceData α β P)) (forcesB : List (ForceVec β)) (xPos : Nat)
      (fds1 : List (ForceData α β P)) (forcesB1 : List (ForceVec β)) (xPos1 : Nat),
      forceLoop cfg x fds forcesB xPos = some (fds1, forcesB1, xPos1) →
        fds1.map (fun d => d.points) = fds.map (fun d => d.points) ∧
        fds1.map (fun d => d.bodyIndex) = fds.map (fun d => d.bodyIndex) ∧
        fds1.map (fun d => d.forces.length) = fds.map (fun d => d.forces.length) ∧
        forcesB1.length = forcesB.length ∧
        xPos1 = xPos + 3 * (fds.map fun d => d.forces.length).sum := by
  intro fds
  induction fds with
  | nil =>
    intro forcesB xPos fds1 forcesB1 xPos1 h
    simp only [forceLoop, Option.some.injEq, Prod.mk.injEq] at h
    obtain ⟨rfl, rfl, rfl⟩ := h
    simp
  | cons fd rest ih =>
    intro forcesB xPos fds1 forcesB1 xPos1 h
    unfold forceLoop at h
    split at h
    · split at h
      · exact absurd h (by simp)
      · rename_i forces2 forcesB2 xPos2 h2
        split at h
        · exact absurd h (by simp)
        · rename_i rest3 forcesB3 xPos3 h3
          simp only [Option.some.injEq, Prod.mk.injEq] at h
          obtain ⟨rfl, rfl, rfl⟩ := h
          obtain ⟨a1, a2, a3⟩ := pointLoop_spec cfg x _ _ _ _ _ _ _ _ _ _ h2
          obtain ⟨b1, b2, b3, b4, b5⟩ := ih _ _ _ _ _ h3
          simp only [List.length_set] at a2
          refine ⟨by simp [b1], by simp [b2], by simp [b3, a1], by omega, ?_⟩
          simp only [List.map_cons, List.sum_cons]
          omega
    · exact absurd h (by simp)

theorem forceLoop_some [Zero β] [Add β] (cfg : Config α β P) (x : List α) :
    ∀ (fds : List (ForceData α β P)) (forcesB : List (ForceVec β)) (xPos : Nat),
      (∀ d ∈ fds, d.forces.length ≤ d.points.length ∧ d.bodyIndex < forcesB.length) →
      xPos + 3 * (fds.map fun d => d.forces.length).sum ≤ x.length →
      ∃ r, forceLoop cfg x fds forcesB xPos = some r := by
  intro fds
  induction fds with
  | nil =>
    intro forcesB xPos _ _
    exact ⟨_, rfl⟩
  | cons fd rest ih =>
    intro forcesB xPos hwf hx
    simp only [List.map_cons, List.sum_cons] at hx
    obtain ⟨hf, hb⟩ := hwf fd (List.mem_cons_self _ _)
    obtain ⟨⟨forces2, forcesB2, xPos2⟩, h2⟩ := pointLoop_some cfg x fd.bodyIndex fd.points
      fd.forces.length 0 xPos fd.forces (forcesB.set fd.bodyIndex ForceVec.zero)
      (by omega) (by omega) (by simpa using hb)
    obtain ⟨_, a2, a3⟩ := pointLoop_spec cfg x _ _ _ _ _ _ _ _ _ _ h2
    simp only [List.length_set] at a2
    obtain ⟨⟨rest3, forcesB3, xPos3⟩, h3⟩ := ih forcesB2 xPos2
      (fun d hd => ⟨(hwf d (List.mem_cons_of_mem _ hd)).1,
        by rw [a2]; exact (hwf d (List.mem_cons_of_mem _ hd)).2⟩)
      (by omega)
    unfold forceLoop
    rw [if_pos hb]
    simp only [h2, h3]
    exact ⟨_, rfl⟩

theorem ellipseLoop_spec (cfg : Config α β P) (x : List α) :
    ∀ (eds : List (EllipseData β)) (xPos : Nat) (eds1 : List (EllipseData β)) (xPos1 : Nat),
      ellipseLoop cfg x eds xPos = some (eds1, xPos1) →
        eds1.length = eds.length ∧ xPos1 = xPos + 5 * eds.length := by
  intro eds
  induction eds with
  | nil =>
    intro xPos eds1 xPos1 h
    simp only [ellipseLoop, Option.some.injEq, Prod.mk.injEq] at h
    obtain ⟨rfl, rfl⟩ := h
    simp
  | cons ed rest ih =>
    intro xPos eds1 xPos1 h
    unfold ellipseLoop at h
    split at h
    · split at h
      · exact absurd h (by simp)
      · rename_i rest2 xPos2 h2
        simp only [Option.some.injEq, Prod.mk.injEq] at h
        obtain ⟨rfl, rfl⟩ := h
        obtain ⟨b1, b2⟩ := ih _ _ _ h2
        simp only [List.length_cons, b1, true_and]
        omega
    · exact absurd h (by simp)

theorem ellipseLoop_some (cfg : Config α β P) (x : List α) :
    ∀ (eds : List (EllipseData β)) (xPos : Nat), xPos + 5 * eds.length ≤ x.length →
      ∃ r, ellipseLoop cfg x eds xPos = some r := by
  intro eds
  induction eds with
  | nil =>
    intro xPos _
    exact ⟨_, rfl⟩
  | cons ed rest ih =>
    intro xPos hx
    simp only [List.length_cons] at hx
    obtain ⟨⟨rest2, xPos2⟩, h2⟩ := ih (xPos + 5) (by omega)
    unfold ellipseLoop
    rw [List.getElem?_eq_getElem (show xPos < x.length by omega),
      List.getElem?_eq_getElem (show xPos + 1 < x.length by omega),
      List.getElem?_eq_getElem (show xPos + 2 < x.length by omega),
      List.getElem?_eq_getElem (show xPos + 3 < x.length by omega),
      List.getElem?_eq_getElem (show xPos + 4 < x.length by omega)]
    simp only [h2]
    exact ⟨_, rfl⟩

theorem updateAux_spec [Zero β] [Add β] (cfg : Config α β P) {s s1 : PGData α β P} {xPos : Nat}
    (h : s.updateAux cfg = some (s1, xPos)) :
    (s1.mb_ = s.mb_ ∧ s1.gravity_ = s.gravity_ ∧ s1.x_ = s.x_ ∧
      s1.nrForcePoints_ = s.nrForcePoints_ ∧ s1.id_ = s.id_ ∧ s1.xStamp_ = s.xStamp_ ∧
      s1.idStamp_ = s.idStamp_) ∧
    (s1.q_.map List.length = s.q_.map List.length ∧
      s1.forcesB_.length = s.forcesB_.length ∧
      s1.forceDatas_.map (fun d => d.points) = s.forceDatas_.map (fun d => d.points) ∧
      s1.forceDatas_.map (fun d => d.bodyIndex) = s.forceDatas_.map (fun d => d.bodyIndex) ∧
      s1.forceDatas_.map (fun d => d.forces.length)
        = s.forceDatas_.map (fun d => d.forces.length) ∧
      s1.ellipseDatas_.length = s.ellipseDatas_.length) ∧
    xPos = s.mb_.nrParams + 3 * (s.forceDatas_.map fun d => d.forces.length).sum
      + 5 * s.ellipseDatas_.length := by
  unfold PGData.updateAux at h
  split at h
  · exact absurd h (by simp)
  · rename_i q1 xPos1 hj
    simp only at h
    split at h
    · exact absurd h (by simp)
    · rename_i fds forcesB1 xPos2 hf
      split at h
      · exact absurd h (by simp)
      · rename_i eds xPos3 he
        simp only [Option.some.injEq, Prod.mk.injEq] at h
        obtain ⟨rfl, rfl⟩ := h
        obtain ⟨a1, a2⟩ := jointLoop_spec cfg _ _ _ _ _ _ _ hj
        obtain ⟨b1, b2, b3, b4, b5⟩ := forceLoop_spec cfg _ _ _ _ _ _ _ hf
        obtain ⟨c1, c2⟩ := ellipseLoop_spec cfg _ _ _ _ _ he
        refine ⟨⟨rfl, rfl, rfl, rfl, rfl, rfl, rfl⟩, ⟨a1, b4, b1, b2, b3, c1⟩, ?_⟩
        simp only [MultiBody.nrParams]
        omega

theorem totalPoints_eq_of_map {fds fds1 : List (ForceData α β P)}
    (h : fds1.map (fun d => d.points) = fds.map (fun d => d.points)) :
    totalPoints fds1 = totalPoints fds := by
  have := congrArg (fun l => (l.map List.length).sum) h
  simpa [totalPoints, List.map_map, Function.comp_def] using this

theorem pbSize_congr {s s1 : PGData α β P} (h1 : s1.mb_ = s.mb_)
    (h2 : s1.nrForcePoints_ = s.nrForcePoints_)
    (h3 : s1.ellipseDatas_.length = s.ellipseDatas_.length) : s1.pbSize = s.pbSize := by
  simp [PGData.pbSize, h1, h2, h3]

theorem update_spec [Zero β] [Add β] (cfg : Config α β P) {s s1 : PGData α β P}
    (h : s.update cfg = some s1) : ∃ xPos, s.updateAux cfg = some (s1, xPos) := by
  unfold PGData.update at h
  cases hu : s.updateAux cfg with
  | none => rw [hu] at h; exact absurd h (by simp)
  | some r =>
    rw [hu] at h
    simp only [Option.map_some', Option.some.injEq] at h
    exact ⟨r.2, by rw [← h]⟩

theorem update_inv [Zero β] [Add β] (cfg : Config α β P) {mb : MultiBody}
    {s s1 : PGData α β P} (hs : Inv mb s) (h : s.update cfg = some s1) : Inv mb s1 := by
  obtain ⟨xPos, hu⟩ := update_spec cfg h
  obtain ⟨⟨e1, _, e3, e4, _, e6, e7⟩, ⟨f1, f2, f3, _, _, f6⟩, _⟩ := updateAux_spec cfg hu
  exact
    { mb_eq := e1.trans hs.mb_eq
      x_len := by rw [e3, pbSize_congr e1 e4 f6]; exact hs.x_len
      q_shape := f1.trans hs.q_shape
      forcesB_len := f2.trans hs.forcesB_len
      nrPoints := by rw [e4, totalPoints_eq_of_map f3]; exact hs.nrPoints
      stamps := by rw [e6, e7]; exact hs.stamps }

theorem update_some [Zero β] [Add β] (cfg : Config α β P) {mb : MultiBody}
    {s : PGData α β P} (hs : Inv mb s)
    (hwf : ∀ d ∈ s.forceDatas_, d.WellFormed mb.nrBodies) :
    ∃ r, s.updateAux cfg = some r ∧ r.2 = s.pbSize := by
  have hsum : (s.forceDatas_.map fun d => d.forces.length).sum = s.nrForcePoints_ := by
    rw [hs.nrPoints, totalPoints]
    congr 1
    apply List.map_congr_left
    intro d hd
    exact (hwf d hd).1
  have hx := hs.x_len
  simp only [PGData.pbSize] at hx
  obtain ⟨q1, hj⟩ := jointLoop_some cfg s.x_ s.mb_.joints 0 0 s.q_ []
    (by simp only [MultiBody.nrParams] at hx; omega) (by rw [hs.q_shape, hs.mb_eq]; rfl) rfl
  obtain ⟨⟨fds, forcesB1, xPos2⟩, hf⟩ := forceLoop_some cfg s.x_ s.forceDatas_ s.forcesB_
    (0 + (s.mb_.joints.map Joint.params).sum)
    (fun d hd => ⟨le_of_eq (hwf d hd).1, by rw [hs.forcesB_len]; exact (hwf d hd).2⟩)
    (by rw [hsum]; simp only [MultiBody.nrParams] at hx; omega)
  obtain ⟨_, _, _, _, b5⟩ := forceLoop_spec cfg _ _ _ _ _ _ _ hf
  obtain ⟨⟨eds, xPos3⟩, he⟩ := ellipseLoop_some cfg s.x_ s.ellipseDatas_ xPos2
    (by rw [b5, hsum]; simp only [MultiBody.nrParams] at hx; omega)
  have hu : ∃ r, s.updateAux cfg = some r := by
    unfold PGData.updateAux
    simp only [hj, hf, he]
    exact ⟨_, rfl⟩
  obtain ⟨⟨s1, xPos4⟩, hu⟩ := hu
  refine ⟨_, hu, ?_⟩
  obtain ⟨_, _, hx3⟩ := updateAux_spec cfg hu
  rw [hx3, hsum]
  simp only [PGData.pbSize]
  omega

theorem normalizeHead_length [Zero α] [Add α] [Mul α] [Div α] (sqrt : α → α) (v : List α) :
    (normalizeHead sqrt v).length = v.length := by
  simp only [normalizeHead, List.length_append, List.length_map, List.length_take,
    List.length_drop]
  omega

theorem xNorm_length [Zero α] [Add α] [Mul α] [Div α] (cfg : Config α β P) (s : PGData α β P)
    (v : List α) :
    (s.xNorm cfg v).length = v.length := by
  unfold PGData.xNorm
  split
  · exact normalizeHead_length _ _
  · rfl

theorem commit_spec [BEq α] [Zero β] [Add β] (cfg : Config α β P)
    (s : PGData α β P) (xn : List α) :
    (s.commit cfg xn).state.mb_ = s.mb_ ∧
      (s.commit cfg xn).state.idStamp_ = s.idStamp_ ∧
      (∀ e s1, s.commit cfg xn = Result.failed e s1 → e = Fault.outOfBounds) ∧
      ((s.x_ != xn) = true → (s.commit cfg xn).state.x_ = xn) ∧
      ((s.x_ != xn) = false → s.commit cfg xn = Result.done s) := by
  unfold PGData.commit
  by_cases hx : (s.x_ != xn) = true
  · simp only [hx, ↓reduceIte, true_implies, Bool.true_eq_false, false_implies, and_true]
    cases hu : PGData.update cfg { s with x_ := xn, xStamp_ := s.xStamp_ + 1 } with
    | none => simp [Result.state]
    | some s2 =>
      obtain ⟨xPos, hu2⟩ := update_spec cfg hu
      obtain ⟨⟨e1, _, e3, _, _, _, e7⟩, _, _⟩ := updateAux_spec cfg hu2
      simp [Result.state, e1, e3, e7]
  · simp [hx, Result.state]

theorem commit_state_x [BEq α] [LawfulBEq α] [Zero β] [Add β] (cfg : Config α β P)
    (s : PGData α β P) (xn : List α) : (s.commit cfg xn).state.x_ = xn := by
  obtain ⟨_, _, _, c4, c5⟩ := commit_spec cfg s xn
  by_cases hx : (s.x_ != xn) = true
  · exact c4 hx
  · have hf : (s.x_ != xn) = false := by simpa using hx
    rw [c5 hf]
    simpa using hf

theorem commit_inv [BEq α] [Zero β] [Add β] (cfg : Config α β P) {mb : MultiBody}
    {s s1 : PGData α β P} {xn : List α} (hs : Inv mb s) (hlen : xn.length = s.x_.length)
    (h : s.commit cfg xn = Result.done s1) : Inv mb s1 := by
  unfold PGData.commit at h
  split at h
  · simp only at h
    split at h
    · rename_i s2 hu
      cases h
      refine update_inv cfg ?_ hu
      exact
        { mb_eq := hs.mb_eq
          x_len := by
            show xn.length = _
            rw [hlen]; exact hs.x_len
          q_shape := hs.q_shape
          forcesB_len := hs.forcesB_len
          nrPoints := hs.nrPoints
          stamps := Nat.le_succ_of_le hs.stamps }
    · exact absurd h (by simp)
  · cases h
    exact hs

theorem commit_some [BEq α] [Zero β] [Add β] (cfg : Config α β P) {mb : MultiBody}
    {s : PGData α β P} {xn : List α} (hs : Inv mb s) (hlen : xn.length = s.x_.length)
    (hwf : ∀ d ∈ s.forceDatas_, d.WellFormed mb.nrBodies) :
    ∃ s1, s.commit cfg xn = Result.done s1 := by
  unfold PGData.commit
  split
  · have hs1 : Inv mb { s with x_ := xn, xStamp_ := s.xStamp_ + 1 } :=
      { mb_eq := hs.mb_eq
        x_len := by
          show xn.length = _
          rw [hlen]; exact hs.x_len
        q_shape := hs.q_shape
        forcesB_len := hs.forcesB_len
        nrPoints := hs.nrPoints
        stamps := Nat.le_succ_of_le hs.stamps }
    obtain ⟨r, hr, _⟩ := update_some cfg hs1 hwf
    simp only [PGData.update, hr, Option.map_some']
    exact ⟨_, rfl⟩
  · exact ⟨_, rfl⟩

theorem ctor_inv [Zero α] [Zero β] (mb : MultiBody) (g : Vec3 α) :
    Inv mb (PGData.ctor mb g : PGData α β P) :=
  { mb_eq := rfl
    x_len := by simp [PGData.ctor, PGData.pbSize]
    q_shape := by simp [PGData.ctor, List.map_map, Function.comp_def]
    forcesB_len := by simp [PGData.ctor]
    nrPoints := by simp [PGData.ctor, totalPoints]
    stamps := Nat.le_refl _ }

theorem forces_inv [Zero α] {mb : MultiBody} {s : PGData α β P} (hs : Inv mb s)
    (fd : List (ForceData α β P)) : Inv mb (s.forces fd) :=
  { mb_eq := hs.mb_eq
    x_len := by simp [PGData.forces, PGData.pbSize]
    q_shape := hs.q_shape
    forcesB_len := hs.forcesB_len
    nrPoints := by simp [PGData.forces, foldl_points_eq]
    stamps := Nat.le_succ_of_le hs.stamps }

theorem ellipses_inv [Zero α] {mb : MultiBody} {s : PGData α β P} (hs : Inv mb s)
    (ed : List (EllipseData β)) : Inv mb (s.ellipses ed) :=
  { mb_eq := hs.mb_eq
    x_len := by simp [PGData.ellipses, PGData.pbSize]
    q_shape := hs.q_shape
    forcesB_len := hs.forcesB_len
    nrPoints := hs.nrPoints
    stamps := Nat.le_succ_of_le hs.stamps }

theorem id_inv {mb : MultiBody} {s : PGData α β P} (hs : Inv mb s) : Inv mb s.id := by
  unfold PGData.id
  split
  · exact
      { mb_eq := hs.mb_eq
        x_len := hs.x_len
        q_shape := hs.q_shape
        forcesB_len := hs.forcesB_len
        nrPoints := hs.nrPoints
        stamps := Nat.le_refl _ }
  · exact hs

theorem x_done_commit [BEq α] [Zero α] [Add α] [Mul α] [Div α] [Zero β] [Add β]
    (cfg : Config α β P)
    {s s1 : PGData α β P} {v : List α} (h : s.x cfg v = Result.done s1) :
    v.length = s.x_.length ∧ ¬ (s.mb_.firstJointFree = true ∧ v.length < 4) ∧
      s.commit cfg (s.xNorm cfg v) = Result.done s1 := by
  unfold PGData.x at h
  split at h
  · exact absurd h (by simp)
  · rename_i hl
    split at h
    · exact absurd h (by simp)
    · rename_i h4
      exact ⟨not_not.mp hl, h4, h⟩

theorem x_inv [BEq α] [Zero α] [Add α] [Mul α] [Div α] [Zero β] [Add β]
    (cfg : Config α β P)
    {mb : MultiBody} {s s1 : PGData α β P} {v : List α} (hs : Inv mb s)
    (h : s.x cfg v = Result.done s1) : Inv mb s1 := by
  obtain ⟨hl, _, hc⟩ := x_done_commit cfg h
  exact commit_inv cfg hs (by rw [xNorm_length, hl]) hc

theorem reachable_inv [BEq α] [Zero α] [Add α] [Mul α] [Div α] [Zero β] [Add β]
    (cfg : Config α β P)
    (mb : MultiBody) (g : Vec3 α) {s : PGData α β P} (h : Reachable cfg mb g s) :
    Inv mb s := by
  induction h with
  | ctor => exact ctor_inv mb g
  | x v _ hx ih => exact x_inv cfg ih hx
  | forces fd _ ih => exact forces_inv ih fd
  | ellipses ed _ ih => exact ellipses_inv ih ed
  | id _ ih => exact id_inv ih

theorem x_returns [BEq α] [Zero α] [Add α] [Mul α] [Div α] [Zero β] [Add β]
    (cfg : Config α β P)
    {mb : MultiBody} {s : PGData α β P} (hs : Inv mb s) (hmb : mb.WellFormed)
    (hwf : ∀ d ∈ s.forceDatas_, d.WellFormed mb.nrBodies) {v : List α}
    (hv : v.length = s.pbSize) : ∃ s1, s.x cfg v = Result.done s1 := by
  have hl : v.length = s.x_.length := by rw [hv, hs.x_len]
  unfold PGData.x
  rw [if_neg (by simpa using hl)]
  have h4 : ¬ (s.mb_.firstJointFree = true ∧ v.length < 4) := by
    rintro ⟨hf, hlt⟩
    rw [hs.mb_eq] at hf
    have := hmb hf
    rw [hv] at hlt
    simp only [PGData.pbSize, hs.mb_eq] at hlt
    omega
  rw [if_neg h4]
  exact commit_some cfg hs (by rw [xNorm_length, hl]) hwf

theorem x_state_spec [BEq α] [LawfulBEq α] [Zero α] [Add α] [Mul α] [Div α] [Zero β] [Add β]
    (cfg : Config α β P) (s : PGData α β P) (v : List α) :
    (s.x cfg v).state.mb_ = s.mb_ ∧ (s.x cfg v).state.idStamp_ = s.idStamp_ ∧
      (v.length = s.x_.length → ¬ (s.mb_.firstJointFree = true ∧ v.length < 4) →
        (s.x cfg v).state.x_ = s.xNorm cfg v) := by
  unfold PGData.x
  split
  · rename_i hl
    exact ⟨rfl, rfl, fun h => absurd h hl⟩
  · split
    · rename_i h4
      exact ⟨rfl, rfl, fun _ h => absurd h4 h⟩
    · obtain ⟨c1, c2, _⟩ := commit_spec cfg s (s.xNorm cfg v)
      exact ⟨c1, c2, fun _ _ => commit_state_x cfg s _⟩

theorem x_idStamp [BEq α] [Zero α] [Add α] [Mul α] [Div α] [Zero β] [Add β]
    (cfg : Config α β P) (s : PGData α β P) (v : List α) :
    (s.x cfg v).state.idStamp_ = s.idStamp_ := by
  unfold PGData.x
  split
  · rfl
  · split
    · rfl
    · exact (commit_spec cfg s (s.xNorm cfg v)).2.1

theorem x_twice [BEq α] [Zero α] [Add α] [Mul α] [Div α] [Zero β] [Add β]
    (cfg : Config α β P) {s s1 : PGData α β P} {v : List α}
    (hself : (s.xNorm cfg v != s.xNorm cfg v) = false) (h : s.x cfg v = Result.done s1) :
    s1.x cfg v = Result.done s1 := by
  obtain ⟨hl, h4, hc⟩ := x_done_commit cfg h
  obtain ⟨c1, _, _, c4, c5⟩ := commit_spec cfg s (s.xNorm cfg v)
  by_cases hx : (s.x_ != s.xNorm cfg v) = true
  · have hx1 := c4 hx
    rw [hc] at c1 hx1
    simp only [Result.state] at c1 hx1
    have hxn : s1.xNorm cfg v = s.xNorm cfg v := by simp [PGData.xNorm, c1]
    unfold PGData.x
    rw [if_neg (by rw [hx1, xNorm_length]; simp), if_neg (by rw [c1]; exact h4), hxn]
    refine (commit_spec cfg s1 _).2.2.2.2 ?_
    rw [hx1]
    exact hself
  · have hf : (s.x_ != s.xNorm cfg v) = false := by simpa using hx
    have := c5 hf
    rw [hc] at this
    cases this
    exact h

theorem dbl_map_val_bne [DecidableEq α] (w : List α) :
    (w.map Dbl.val != w.map (Dbl.val : α → Dbl α)) = false := by
  have h : ∀ l : List α, (l.map Dbl.val == l.map (Dbl.val : α → Dbl α)) = true := by
    intro l
    induction l with
    | nil => rfl
    | cons a rest ih =>
      show (Dbl.beq (Dbl.val a) (Dbl.val a) && (rest.map Dbl.val == rest.map Dbl.val)) = true
      rw [ih]
      simp [Dbl.beq]
  simp [bne, h w]

theorem dbl_sum_sq [LinearOrderedField α] (l : List α) :
    ((l.map (Dbl.val : α → Dbl α)).map fun c => c * c).sum
      = Dbl.val ((l.map fun c => c * c).sum) := by
  induction l with
  | nil => rfl
  | cons a rest ih =>
    simp only [List.map_cons, List.sum_cons, ih]
    rfl

theorem field_sum_sq_nonneg [LinearOrderedField α] (l : List α) :
    0 ≤ (l.map fun c => c * c).sum := by
  induction l with
  | nil => simp
  | cons a rest ih =>
    simp only [List.map_cons, List.sum_cons]
    exact add_nonneg (mul_self_nonneg a) ih

theorem dbl_normalizeHead [LinearOrderedField α] (r : α → α) (w : List α)
    (hn : r (((w.take 4).map fun c => c * c).sum) ≠ 0) :
    normalizeHead (Dbl.sqrt r) (w.map Dbl.val) = (normalizeHead r w).map Dbl.val := by
  unfold normalizeHead
  rw [← List.map_take, ← List.map_drop, dbl_sum_sq, List.map_append]
  congr 1
  have hs : Dbl.sqrt r (Dbl.val (((w.take 4).map fun c => c * c).sum))
      = Dbl.val (r (((w.take 4).map fun c => c * c).sum)) := by
    have h0 : ¬ (((w.take 4).map fun c => c * c).sum < 0) :=
      not_lt.mpr (field_sum_sq_nonneg _)
    simp only [Dbl.sqrt, if_neg h0]
  rw [hs, List.map_map, List.map_map]
  apply List.map_congr_left
  intro a _
  show Dbl.div (Dbl.val a) (Dbl.val _) = Dbl.val (a / _)
  simp only [Dbl.div, if_neg hn]

theorem dbl_xNorm_self [LinearOrderedField α] (r : α → α) (cfg : Config (Dbl α) β P)
    (hsqrt : cfg.sqrt = Dbl.sqrt r) (s : PGData (Dbl α) β P) (w : List α)
    (hnorm : s.mb_.firstJointFree = true → r (((w.take 4).map fun c => c * c).sum) ≠ 0) :
    (s.xNorm cfg (w.map Dbl.val) != s.xNorm cfg (w.map Dbl.val)) = false := by
  unfold PGData.xNorm
  split
  · rename_i hf
    rw [hsqrt, dbl_normalizeHead r w (hnorm hf)]
    exact dbl_map_val_bne _
  · exact dbl_map_val_bne _

/-- Claim C4 (resize invariant): for every cache state, `forces(l)` changes `pbSize()`
by exactly `3 * (total points of l - nrForcePoints())`, leaves an all-zero vector of
length `pbSize()` and increases the write stamp by one; `ellipses(l)` changes
`pbSize()` by `5 * (new count - old count)`, with the same zero vector and stamp
increment; in a reachable state `nrForcePoints()` is the total number of
application points of the registered descriptors. -/
theorem resize_invariant [Field α] [DecidableEq α] [Zero β] [Add β] (cfg : Config α β P)
    (mb : MultiBody) (g : Vec3 α) (s : PGData α β P) :
    (∀ l : List (ForceData α β P),
        ((s.forces l).pbSize : Int) - (s.pbSize : Int)
            = 3 * ((totalPoints l : Int) - (s.nrForcePoints : Int)) ∧
          (s.forces l).x_ = List.replicate (s.forces l).pbSize 0 ∧
          (s.forces l).xStamp = s.xStamp + 1) ∧
      (∀ l : List (EllipseData β),
        ((s.ellipses l).pbSize : Int) - (s.pbSize : Int)
            = 5 * ((l.length : Int) - (s.ellipseDatas_.length : Int)) ∧
          (s.ellipses l).x_ = List.replicate (s.ellipses l).pbSize 0 ∧
          (s.ellipses l).xStamp = s.xStamp + 1) ∧
      (Reachable cfg mb g s → s.nrForcePoints = totalPoints s.forceDatas_) := by
  refine ⟨fun l => ⟨?_, ?_, rfl⟩, fun l => ⟨?_, ?_, rfl⟩, fun h => (reachable_inv cfg mb g h).nrPoints⟩
  · simp only [PGData.forces, PGData.pbSize, PGData.nrForcePoints, foldl_points_eq]
    push_cast
    ring
  · simp [PGData.forces, PGData.pbSize]
  · simp only [PGData.ellipses, PGData.pbSize]
    push_cast
    ring
  · simp [PGData.ellipses, PGData.pbSize]

theorem resize_invariant_witness :
    Reachable plainConfig oneJointArm ⟨0, 0, 0⟩ (armCache.forces [onePointForce 0]) ∧
      (armCache.forces [onePointForce 0]).nrForcePoints = 1 ∧
      (armCache.forces [onePointForce 0]).nrForcePoints
        = totalPoints (armCache.forces [onePointForce 0]).forceDatas_ :=
  ⟨Reachable.forces _ Reachable.ctor, by decide,
    (resize_invariant plainConfig oneJointArm ⟨0, 0, 0⟩
      (armCache.forces [onePointForce 0])).2.2 (Reachable.forces _ Reachable.ctor)⟩

/-- Claim C5 (laziness of inverse dynamics): `x`, `forces` and `ellipses` leave
`idStamp_` unchanged; `id()` runs the inverse dynamics exactly when the two stamps
differ, and is without effect otherwise; after `id()` the stamps agree and the write
stamp is unchanged, so a second `id()` does nothing; in every reachable state
`idStamp_ ≤ xStamp_`. -/
theorem idStamp_lazy [Field α] [DecidableEq α] [Zero β] [Add β] (cfg : Config α β P)
    (mb : MultiBody) (g : Vec3 α) (s : PGData α β P) :
    (∀ v, (s.x cfg v).state.idStamp_ = s.idStamp_) ∧
      (∀ l, (s.forces l).idStamp_ = s.idStamp_) ∧
      (∀ l, (s.ellipses l).idStamp_ = s.idStamp_) ∧
      (s.id.id_.runs = s.id_.runs + 1 ↔ s.idStamp_ ≠ s.xStamp_) ∧
      (s.idStamp_ ≠ s.xStamp_ → s.id.id_ = s.id_.run s.mb_ s.fk_ s.forcesB_) ∧
      (s.idStamp_ = s.xStamp_ → s.id = s) ∧
      (s.id.idStamp_ = s.id.xStamp_ ∧ s.id.xStamp_ = s.xStamp_) ∧
      s.id.id = s.id ∧
      (Reachable cfg mb g s → s.idStamp_ ≤ s.xStamp_) := by
  have hfix : ∀ t : PGData α β P, t.idStamp_ = t.xStamp_ → t.id = t := by
    intro t h
    unfold PGData.id
    rw [if_neg (by simpa using h.symm)]
  have hid : s.id.idStamp_ = s.id.xStamp_ ∧ s.id.xStamp_ = s.xStamp_ := by
    unfold PGData.id
    split
    · exact ⟨rfl, rfl⟩
    · rename_i h
      exact ⟨(not_not.mp h).symm, rfl⟩
  refine ⟨fun v => (x_state_spec cfg s v).2.1, fun _ => rfl, fun _ => rfl, ?_, ?_, ?_, hid, ?_,
    fun h => (reachable_inv cfg mb g h).stamps⟩
  · unfold PGData.id
    by_cases h : s.xStamp_ = s.idStamp_
    · simp [h]
    · simp [h, ID.run, Ne.symm h]
  · intro h
    unfold PGData.id
    rw [if_pos (Ne.symm h)]
  · exact hfix s
  · exact hfix s.id hid.1

theorem idStamp_lazy_witness :
    Reachable plainConfig oneJointArm ⟨0, 0, 0⟩ (armCache.x plainConfig [1]).state ∧
      (armCache.x plainConfig [1]).state.idStamp_ = 1 ∧
      (armCache.x plainConfig [1]).state.xStamp_ = 2 ∧
      (armCache.x plainConfig [1]).state.idStamp_ ≤ (armCache.x plainConfig [1]).state.xStamp_ :=
  ⟨Reachable.x [1] Reachable.ctor (by decide), by decide, by decide,
    (idStamp_lazy plainConfig oneJointArm ⟨0, 0, 0⟩ (armCache.x plainConfig [1]).state).2.2.2.2.2.2.2.2
      (Reachable.x [1] Reachable.ctor (by decide))⟩

/-- Claim C6 (size check of `x`): in every reachable state `x(v)` stops at the size
assertion exactly when the length of `v` differs from `pbSize()`; it then leaves the
state as it was; when the length matches and the descriptors are well formed, `x(v)`
returns. -/
theorem x_size_check [Field α] [DecidableEq α] [Zero β] [Add β] (cfg : Config α β P)
    (mb : MultiBody) (g : Vec3 α) (s : PGData α β P) (hr : Reachable cfg mb g s)
    (v : List α) :
    ((∃ s1, s.x cfg v = Result.failed Fault.sizeMismatch s1) ↔ v.length ≠ s.pbSize) ∧
      (v.length ≠ s.pbSize → s.x cfg v = Result.failed Fault.sizeMismatch s) ∧
      (v.length = s.pbSize → mb.WellFormed →
        (∀ d ∈ s.forceDatas_, d.WellFormed mb.nrBodies) →
          ∃ s1, s.x cfg v = Result.done s1) := by
  have hs := reachable_inv cfg mb g hr
  have hfail : v.length ≠ s.pbSize → s.x cfg v = Result.failed Fault.sizeMismatch s := by
    intro h
    unfold PGData.x
    rw [if_pos (by rw [hs.x_len]; exact h)]
  refine ⟨⟨?_, fun h => ⟨s, hfail h⟩⟩, hfail, fun hv hmb hwf => x_returns cfg hs hmb hwf hv⟩
  rintro ⟨s1, h1⟩ hv
  unfold PGData.x at h1
  rw [if_neg (by rw [hs.x_len]; simpa using hv)] at h1
  split at h1
  · cases h1
  · obtain ⟨_, _, c3, _, _⟩ := commit_spec cfg s (s.xNorm cfg v)
    have := c3 _ _ h1
    cases this

theorem x_size_check_witness :
    Reachable plainConfig oneJointArm ⟨0, 0, 0⟩ (armCache.forces [onePointForce 1]) ∧
      (armCache.forces [onePointForce 1]).pbSize = 4 ∧
      (armCache.forces [onePointForce 1]).x plainConfig [1, 2]
        = Result.failed Fault.sizeMismatch (armCache.forces [onePointForce 1]) ∧
      (armCache.forces [onePointForce 1]).x plainConfig [1, 2, 3, 4]
        = Result.done ((armCache.forces [onePointForce 1]).x plainConfig [1, 2, 3, 4]).state :=
  ⟨Reachable.forces _ Reachable.ctor, by decide,
    (x_size_check plainConfig oneJointArm ⟨0, 0, 0⟩ _ (Reachable.forces _ Reachable.ctor)
      [1, 2]).2.1 (by decide),
    Exists.elim
      ((x_size_check plainConfig oneJointArm ⟨0, 0, 0⟩ (armCache.forces [onePointForce 1])
        (Reachable.forces _ Reachable.ctor) [1, 2, 3, 4]).2.2 (by decide)
        (fun h => absurd h (by decide))
        (by
          intro d hd
          simp only [PGData.forces, armCache, List.mem_singleton] at hd
          subst hd
          exact ⟨rfl, by decide⟩))
      (fun s1 h => by rw [h]; rfl)⟩

theorem setCoord_eq {q q1 : List (List β)} {i j : Nat} {b : β} {row : List β}
    (hrow : q[i]? = some row) (h : setCoord q i j b = some q1) :
    j < row.length ∧ q1 = q.set i (row.set j b) := by
  unfold setCoord at h
  rw [hrow] at h
  simp only at h
  split at h
  · rename_i hj
    simp only [Option.some.injEq] at h
    exact ⟨hj, h.symm⟩
  · exact absurd h (by simp)

theorem take_succ_set {γ : Type} (b : γ) :
    ∀ (row : List γ) (j : Nat), j < row.length → (row.set j b).take (j + 1) = row.take j ++ [b] := by
  intro row
  induction row with
  | nil => intro j h; simp at h
  | cons a rest ih =>
    intro j h
    cases j with
    | zero => simp
    | succ j =>
      simp only [List.set_cons_succ, List.take_succ_cons, List.cons_append, List.cons.injEq,
        true_and]
      exact ih j (by simpa using h)

theorem drop_set_of_lt {γ : Type} (b : γ) :
    ∀ (row : List γ) (j m : Nat), j < m → (row.set j b).drop m = row.drop m := by
  intro row
  induction row with
  | nil => intro j m _; simp
  | cons a rest ih =>
    intro j m h
    cases m with
    | zero => omega
    | succ m =>
      cases j with
      | zero => simp
      | succ j =>
        simp only [List.set_cons_succ, List.drop_succ_cons]
        exact ih j m (by omega)

theorem paramLoop_content (cfg : Config α β P) (x : List α) (i : Nat) :
    ∀ (n j xPos : Nat) (q q1 : List (List β)) (xPos1 : Nat) (row : List β),
      q[i]? = some row → paramLoop cfg x i n j xPos q = some (q1, xPos1) →
        q1 = q.set i (row.take j
          ++ List.zipWith (fun k a => cfg.construct_f x.length k a) (List.range' xPos n)
              ((x.drop xPos).take n)
          ++ row.drop (j + n)) := by
  intro n
  induction n with
  | zero =>
    intro j xPos q q1 xPos1 row hrow h
    simp only [paramLoop, Option.some.injEq, Prod.mk.injEq] at h
    obtain ⟨rfl, _⟩ := h
    simp only [List.range'_zero, List.take_zero, List.zipWith_nil_left, List.append_nil,
      Nat.add_zero, List.take_append_drop]
    exact (list_set_same _ _ _ hrow).symm
  | succ n ih =>
    intro j xPos q q1 xPos1 row hrow h
    unfold paramLoop at h
    split at h
    · exact absurd h (by simp)
    · rename_i v hv
      split at h
      · exact absurd h (by simp)
      · rename_i q2 hq2
        obtain ⟨hj, rfl⟩ := setCoord_eq hrow hq2
        have hi : i < q.length := (List.getElem?_eq_some.mp hrow).1
        have hrow2 : (q.set i (row.set j (cfg.construct_f x.length xPos v)))[i]?
            = some (row.set j (cfg.construct_f x.length xPos v)) := by
          rw [List.getElem?_set_self hi]
        rw [ih _ _ _ _ _ _ hrow2 h, List.set_set]
        congr 1
        have hx : xPos < x.length := (List.getElem?_eq_some.mp hv).1
        have hxv : x[xPos] = v := by
          have := List.getElem?_eq_getElem hx
          rw [this] at hv
          exact Option.some.inj hv
        have hdrop : x.drop xPos = v :: x.drop (xPos + 1) := by
          rw [← hxv]
          exact List.drop_eq_getElem_cons hx
        rw [hdrop, List.take_succ_cons, List.range'_succ, List.zipWith_cons_cons,
          take_succ_set _ _ _ hj, drop_set_of_lt _ _ _ _ (show j < j + 1 + n by omega)]
        simp only [List.append_assoc, List.singleton_append, List.cons_append, List.nil_append]
        rw [show j + 1 + n = j + (n + 1) by omega]

theorem jointLoop_content (cfg : Config α β P) (x : List α) :
    ∀ (joints : List Joint) (i xPos : Nat) (q q1 : List (List β)) (xPos1 : Nat)
      (pre : List Nat), q.map List.length = pre ++ joints.map Joint.params → pre.length = i →
      jointLoop cfg x joints i xPos q = some (q1, xPos1) →
        q1 = q.take i ++ jointRegionCoords cfg x joints xPos := by
  intro joints
  induction joints with
  | nil =>
    intro i xPos q q1 xPos1 pre hq hi h
    simp only [jointLoop, Option.some.injEq, Prod.mk.injEq] at h
    obtain ⟨rfl, _⟩ := h
    have hlen : q.length = i := by
      have := congrArg List.length hq
      simpa [hi] using this
    simp [jointRegionCoords, ← hlen]
  | cons jt rest ih =>
    intro i xPos q q1 xPos1 pre hq hi h
    unfold jointLoop at h
    split at h
    · exact absurd h (by simp)
    · rename_i q2 xPos2 h2
      simp only [List.map_cons] at hq
      have hqi : (q.map List.length)[i]? = some jt.params := by
        rw [hq, ← hi, List.getElem?_append_right (Nat.le_refl _)]
        simp
      rw [List.getElem?_map] at hqi
      cases hrow : q[i]? with
      | none => rw [hrow] at hqi; exact absurd hqi (by simp)
      | some row =>
        rw [hrow] at hqi
        simp only [Option.map_some', Option.some.injEq] at hqi
        have hi2 : i < q.length := (List.getElem?_eq_some.mp hrow).1
        obtain ⟨a1, a2⟩ := paramLoop_spec cfg x i _ _ _ _ _ _ h2
        have hq2 := paramLoop_content cfg x i _ _ _ _ _ _ _ hrow h2
        simp only [List.take_zero, List.nil_append, Nat.zero_add] at hq2
        rw [List.drop_of_length_le (le_of_eq hqi), List.append_nil] at hq2
        rw [ih (i + 1) xPos2 q2 q1 xPos1 (pre ++ [jt.params]) (by rw [a1, hq]; simp)
          (by simp [hi]) h, hq2, take_succ_set _ _ _ hi2, a2]
        simp [jointRegionCoords]

theorem update_coords [Zero β] [Add β] (cfg : Config α β P) {mb : MultiBody}
    {s s1 : PGData α β P} (hs : Inv mb s) (h : s.update cfg = some s1) :
    s1.q_ = jointRegionCoords cfg s1.x_ s1.mb_.joints 0 ∧ s1.fk_.q = some s1.q_ := by
  obtain ⟨xPos, hu⟩ := update_spec cfg h
  unfold PGData.updateAux at hu
  split at hu
  · exact absurd hu (by simp)
  · rename_i q1 xPos1 hj
    simp only at hu
    split at hu
    · exact absurd hu (by simp)
    · split at hu
      · exact absurd hu (by simp)
      · simp only [Option.some.injEq, Prod.mk.injEq] at hu
        obtain ⟨rfl, _⟩ := hu
        have := jointLoop_content cfg s.x_ s.mb_.joints 0 0 s.q_ q1 xPos1 []
          (by rw [hs.q_shape, hs.mb_eq]; rfl) rfl hj
        simp only [List.take_zero, List.nil_append] at this
        exact ⟨this, rfl⟩

theorem x_resynchronizes [BEq α] [Zero α] [Add α] [Mul α] [Div α] [Zero β] [Add β]
    (cfg : Config α β P) {mb : MultiBody} {s s1 : PGData α β P} {v : List α} (hs : Inv mb s)
    (h : s.x cfg v = Result.done s1) (hne : (s.x_ != s.xNorm cfg v) = true) :
    s1.q_ = jointRegionCoords cfg s1.x_ s1.mb_.joints 0 ∧ s1.fk_.q = some s1.q_ := by
  obtain ⟨hl, _, hc⟩ := x_done_commit cfg h
  unfold PGData.commit at hc
  rw [if_pos hne] at hc
  simp only at hc
  split at hc
  · rename_i s2 hu
    cases hc
    have hinv : Inv mb { s with x_ := s.xNorm cfg v, xStamp_ := s.xStamp_ + 1 } :=
      { mb_eq := hs.mb_eq
        x_len := by
          show (s.xNorm cfg v).length = _
          rw [xNorm_length, hl]; exact hs.x_len
        q_shape := hs.q_shape
        forcesB_len := hs.forcesB_len
        nrPoints := hs.nrPoints
        stamps := Nat.le_succ_of_le hs.stamps }
    exact update_coords cfg hinv hu
  · exact absurd hc (by simp)

/-- Claim C2 (cache coherence) evaluated at its failing input: on the one-joint arm,
after `x([1])` and `forces([])` the call `x([0])` returns without any change, in a
reachable state whose stored vector is `[0]` while `q_` is still `[[1]]`, not the
construct-transform `[[0]]` of the stored joint region. -/
theorem stale_coords_after_forces :
    ((armCache.x plainConfig [1]).state.forces []).x plainConfig [0]
        = Result.done ((armCache.x plainConfig [1]).state.forces []) ∧
      ((armCache.x plainConfig [1]).state.forces []).x_ = [0] ∧
      ((armCache.x plainConfig [1]).state.forces []).q_ = [[1]] ∧
      jointRegionCoords plainConfig ((armCache.x plainConfig [1]).state.forces []).x_
        oneJointArm.joints 0 = [[0]] ∧
      Reachable plainConfig oneJointArm ⟨0, 0, 0⟩ ((armCache.x plainConfig [1]).state.forces []) :=
  ⟨by decide!, by decide!, by decide!, by decide!,
    Reachable.forces [] (Reachable.x [1] Reachable.ctor (by decide!))⟩

/-- Claim C8 (net body force) evaluated at its failing inputs. Two descriptors on
body 0 with forces `(1,0,0)` and `(0,2,0)`: after `x` the accumulated force of body
0 is `(0,2,0)` where the claim's sum is `(1,2,0)`. A list on body 1 that replaced a
list on body 0: body 0, named by no registered descriptor, keeps the force
`(1,0,0)` where the claim's sum is zero. -/
theorem body_force_overwritten :
    ((armCache.forces [onePointForce 0, onePointForce 0]).x plainConfig [0, 1, 0, 0, 0, 2, 0]
        = Result.done ((armCache.forces [onePointForce 0, onePointForce 0]).x plainConfig
            [0, 1, 0, 0, 0, 2, 0]).state ∧
      ((armCache.forces [onePointForce 0, onePointForce 0]).x plainConfig
          [0, 1, 0, 0, 0, 2, 0]).state.forcesB_[0]? = some ⟨⟨0, 0, 0⟩, ⟨0, 2, 0⟩⟩ ∧
      netBodyForce plainConfig [0, 1, 0, 0, 0, 2, 0] 0 [onePointForce 0, onePointForce 0] 1
        = ⟨⟨0, 0, 0⟩, ⟨1, 2, 0⟩⟩) ∧
    ((((armCache.forces [onePointForce 0]).x plainConfig [0, 1, 0, 0]).state.forces
          [onePointForce 1]).x plainConfig [0, 0, 2, 0]
        = Result.done ((((armCache.forces [onePointForce 0]).x plainConfig
            [0, 1, 0, 0]).state.forces [onePointForce 1]).x plainConfig [0, 0, 2, 0]).state ∧
      ((((armCache.forces [onePointForce 0]).x plainConfig [0, 1, 0, 0]).state.forces
          [onePointForce 1]).x plainConfig [0, 0, 2, 0]).state.forcesB_[0]?
        = some ⟨⟨0, 0, 0⟩, ⟨1, 0, 0⟩⟩ ∧
      netBodyForce plainConfig [0, 0, 2, 0] 0 [onePointForce 1] 1 = ⟨⟨0, 0, 0⟩, ⟨0, 0, 0⟩⟩) :=
  ⟨⟨by decide!, by decide!, by decide!⟩, ⟨by decide!, by decide!, by decide!⟩⟩

/-- Claim C10 (layout agreement) evaluated at its failing inputs. A descriptor with a
force slot and no application point: `pbSize()` is 1 and `update()`, run by `x`,
reads `points[0]` and slots 1..3 out of bounds. A descriptor with an application
point and no force slot, and one ellipse: `ellipseParamsBegin()` is 4 and
`pbSize()` is 9, but `update()` reads the ellipse from slots 1..5 and its read
position ends at 6. -/
theorem layout_disagreement :
    ((armCache.forces [forceWithoutPoint]).pbSize = 1 ∧
        (armCache.forces [forceWithoutPoint]).x plainConfig [1]
          = Result.failed Fault.outOfBounds
              ((armCache.forces [forceWithoutPoint]).x plainConfig [1]).state) ∧
      (((armCache.forces [pointWithoutForce]).ellipses [zeroEllipse]).ellipseParamsBegin = 4 ∧
        ((armCache.forces [pointWithoutForce]).ellipses [zeroEllipse]).pbSize = 9 ∧
        (((armCache.forces [pointWithoutForce]).ellipses [zeroEllipse]).x plainConfig
            [0, 1, 2, 3, 4, 5, 6, 7, 8]).state.ellipseDatas_ = [⟨0, 1, 2, 3, 4, 5⟩] ∧
        ((((armCache.forces [pointWithoutForce]).ellipses [zeroEllipse]).x plainConfig
            [0, 1, 2, 3, 4, 5, 6, 7, 8]).state.updateAux plainConfig).map Prod.snd = some 6) :=
  ⟨⟨by decide!, by decide!⟩, by decide!, by decide!, by decide!, by decide!⟩

theorem sum_sq_map_div [Field α] (n : α) (l : List α) :
    ((l.map fun a => a / n).map fun c => c * c).sum = (l.map fun c => c * c).sum / (n * n) := by
  induction l with
  | nil => simp
  | cons a rest ih =>
    simp only [List.map_cons, List.sum_cons, ih, div_mul_div_comm, add_div]

theorem sum_sq_nonneg (l : List ℝ) : 0 ≤ (l.map fun c => c * c).sum := by
  induction l with
  | nil => simp
  | cons a rest ih =>
    simp only [List.map_cons, List.sum_cons]
    exact add_nonneg (mul_self_nonneg a) ih

theorem sum_sq_pos {l : List ℝ} (h : ∃ a ∈ l, a ≠ 0) : 0 < (l.map fun c => c * c).sum := by
  induction l with
  | nil =>
    obtain ⟨a, ha, _⟩ := h
    cases ha
  | cons b rest ih =>
    simp only [List.map_cons, List.sum_cons]
    obtain ⟨a, ha, hne⟩ := h
    rcases List.mem_cons.mp ha with rfl | hmem
    · exact add_pos_of_pos_of_nonneg (mul_self_pos.mpr hne) (sum_sq_nonneg rest)
    · exact add_pos_of_nonneg_of_pos (mul_self_nonneg b) (ih ⟨a, hmem, hne⟩)

theorem normalizeHead_take_drop [Field α] (sqrt : α → α) (v : List α) (h4 : 4 ≤ v.length) :
    (normalizeHead sqrt v).take 4
        = (v.take 4).map (fun a => a / sqrt (((v.take 4).map fun c => c * c).sum)) ∧
      (normalizeHead sqrt v).drop 4 = v.drop 4 := by
  have hl : ((v.take 4).map
      (fun a => a / sqrt (((v.take 4).map fun c => c * c).sum))).length = 4 := by
    simp only [List.length_map, List.length_take]
    omega
  unfold normalizeHead
  constructor
  · rw [List.take_append_of_le_length (le_of_eq hl.symm), List.take_of_length_le (le_of_eq hl)]
  · rw [List.drop_append_of_le_length (le_of_eq hl.symm), List.drop_of_length_le (le_of_eq hl)]
    rfl

/-- Claim C9 as amended (normalization invariant): over the reals, for a mechanism
whose first joint is free and every vector `v` of the stored length, with at least
four entries of which the first four are not all zero, after `x(v)` the first four
stored entries have Euclidean norm exactly 1 and the remaining entries are those of
`v`. -/
theorem x_normalizes_head [Zero β] [Add β] (cfg : Config ℝ β P)
    (hsqrt : cfg.sqrt = Real.sqrt) (s : PGData ℝ β P) (v : List ℝ)
    (hfree : s.mb_.firstJointFree = true) (hlen : v.length = s.x_.length)
    (h4 : 4 ≤ v.length) (hne : ∃ a ∈ v.take 4, a ≠ 0) :
    Real.sqrt ((((s.x cfg v).state.x_.take 4).map fun c => c * c).sum) = 1 ∧
      (s.x cfg v).state.x_.drop 4 = v.drop 4 := by
  have hx := (x_state_spec cfg s v).2.2 hlen (fun h => absurd h4 (by omega))
  rw [hx]
  unfold PGData.xNorm
  rw [if_pos hfree, hsqrt]
  obtain ⟨ht, hd⟩ := normalizeHead_take_drop Real.sqrt v h4
  rw [ht, hd, sum_sq_map_div]
  refine ⟨?_, rfl⟩
  have hpos := sum_sq_pos hne
  rw [Real.mul_self_sqrt (le_of_lt hpos), div_self (ne_of_gt hpos), Real.sqrt_one]

theorem x_normalizes_head_witness :
    floatingBase.firstJointFree = true ∧
      (3 : ℝ) ∈ ([3, 0, 4, 0, 1, 2, 3] : List ℝ).take 4 ∧ (3 : ℝ) ≠ 0 ∧
      Real.sqrt (((((PGData.ctor floatingBase ⟨0, 0, 0⟩ : PGData ℝ ℝ Unit).x
          ⟨fun _ _ a => a, fun _ f => f, Real.sqrt⟩ [3, 0, 4, 0, 1, 2, 3]).state.x_.take 4).map
            fun c => c * c).sum) = 1 ∧
      ((PGData.ctor floatingBase ⟨0, 0, 0⟩ : PGData ℝ ℝ Unit).x
          ⟨fun _ _ a => a, fun _ f => f, Real.sqrt⟩ [3, 0, 4, 0, 1, 2, 3]).state.x_.drop 4
        = [1, 2, 3] :=
  ⟨rfl, by simp, by norm_num,
    x_normalizes_head ⟨fun _ _ a => a, fun _ f => f, Real.sqrt⟩ rfl
      (PGData.ctor floatingBase ⟨0, 0, 0⟩) [3, 0, 4, 0, 1, 2, 3] rfl
      (by simp [PGData.ctor, floatingBase, MultiBody.nrParams]) (by simp)
      ⟨3, by simp, by norm_num⟩⟩

/-- Claim C9 as stated fails at the zero quaternion head: on the floating base as
constructed, `v = [0,0,0,0,0,0,1]` has the right length and a head of norm 0, not 1,
and after `x(v)` the stored head still has not norm 1. (The quotient by the zero norm
has no value in the reals; the field convention makes it 0, IEEE arithmetic makes it
NaN, and in neither reading is the norm 1.) -/
theorem zero_head_not_normalized :
    floatingBase.firstJointFree = true ∧
      ([0, 0, 0, 0, 0, 0, 1] : List ℝ).length
        = (PGData.ctor floatingBase ⟨0, 0, 0⟩ : PGData ℝ ℝ Unit).pbSize ∧
      Real.sqrt (((([0, 0, 0, 0, 0, 0, 1] : List ℝ).take 4).map fun c => c * c).sum) ≠ 1 ∧
      Real.sqrt (((((PGData.ctor floatingBase ⟨0, 0, 0⟩ : PGData ℝ ℝ Unit).x
          ⟨fun _ _ a => a, fun _ f => f, Real.sqrt⟩ [0, 0, 0, 0, 0, 0, 1]).state.x_.take 4).map
            fun c => c * c).sum) ≠ 1 := by
  refine ⟨rfl, by simp [PGData.ctor, PGData.pbSize, floatingBase, MultiBody.nrParams],
    by simp, ?_⟩
  have hx := (x_state_spec (⟨fun _ _ a => a, fun _ f => f, Real.sqrt⟩ : Config ℝ ℝ Unit)
    (PGData.ctor floatingBase ⟨0, 0, 0⟩) [0, 0, 0, 0, 0, 0, 1]).2.2
    (by simp [PGData.ctor, floatingBase, MultiBody.nrParams]) (by simp)
  rw [hx]
  simp [PGData.xNorm, PGData.ctor, floatingBase, MultiBody.firstJointFree, normalizeHead]

end CacheLemmas

section CollisionLemmas

variable {α : Type}

theorem foldl_write_apply (i c0 : Nat) (l : List (Nat × α)) (m : SparseMatrix α) (r c : Nat) :
    (l.foldl (fun m ka => fun r c => if r = (i, c0).1 ∧ c = (i, c0).2 + ka.1 then ka.2 else m r c)
        m) r c
      = if r = i then (lastWrite c c0 l).getD (m r c) else m r c := by
  induction l generalizing m with
  | nil => simp [lastWrite]
  | cons ka rest ih =>
    rw [List.foldl_cons, ih]
    by_cases hr : r = i
    · simp only [hr, if_true, lastWrite]
      cases hlw : lastWrite c c0 rest with
      | some b => simp
      | none =>
        by_cases hc : c = c0 + ka.1
        · simp [hc]
        · simp [hc]
    · simp [hr]

theorem lastWrite_some_mem {c c0 : Nat} :
    ∀ {cols : List Nat} {row : List α} {b : α}, lastWrite c c0 (cols.zip row) = some b →
      ∃ k ∈ cols, c = c0 + k := by
  intro cols
  induction cols with
  | nil => intro row b h; simp [lastWrite] at h
  | cons k0 cols ih =>
    intro row b h
    cases row with
    | nil => simp [lastWrite] at h
    | cons a0 row =>
      rw [List.zip_cons_cons, lastWrite] at h
      cases hlw : lastWrite c c0 (cols.zip row) with
      | some b1 =>
        obtain ⟨k, hk, hc⟩ := ih hlw
        exact ⟨k, List.mem_cons_of_mem _ hk, hc⟩
      | none =>
        rw [hlw] at h
        simp only at h
        split at h
        · rename_i hc
          exact ⟨k0, List.mem_cons_self _ _, hc⟩
        · exact absurd h (by simp)

theorem lastWrite_none_not_mem {c c0 : Nat} :
    ∀ {cols : List Nat} {row : List α}, lastWrite c c0 (cols.zip row) = none →
      cols.length ≤ row.length → ∀ k ∈ cols, c ≠ c0 + k := by
  intro cols
  induction cols with
  | nil => intro row _ _ k hk; cases hk
  | cons k0 cols ih =>
    intro row h hlen k hk
    cases row with
    | nil => simp at hlen
    | cons a0 row =>
      rw [List.zip_cons_cons, lastWrite] at h
      cases hlw : lastWrite c c0 (cols.zip row) with
      | some b1 => rw [hlw] at h; exact absurd h (by simp)
      | none =>
        rw [hlw] at h
        simp only at h
        rcases List.mem_cons.mp hk with rfl | hk
        · intro hc
          rw [if_pos hc] at h
          exact absurd h (by simp)
        · exact ih hlw (by simpa using hlen) k hk

theorem lastWrite_nodup {c0 : Nat} :
    ∀ {cols : List Nat} {row : List α} {k col : Nat} {a : α}, cols.Nodup →
      cols[k]? = some col → row[k]? = some a →
      lastWrite (c0 + col) c0 (cols.zip row) = some a := by
  intro cols
  induction cols with
  | nil => intro row k col a _ h _; simp at h
  | cons k0 cols ih =>
    intro row k col a hnd hcol hrow
    cases row with
    | nil => simp at hrow
    | cons a0 row =>
      rw [List.zip_cons_cons, lastWrite]
      obtain ⟨hk0, hnd1⟩ := List.nodup_cons.mp hnd
      cases k with
      | zero =>
        simp only [List.getElem?_cons_zero, Option.some.injEq] at hcol hrow
        subst hcol hrow
        cases hlw : lastWrite (c0 + k0) c0 (cols.zip row) with
        | some b1 =>
          obtain ⟨k, hk, hc⟩ := lastWrite_some_mem hlw
          have : k0 = k := by omega
          exact absurd (this ▸ hk) hk0
        | none => simp
      | succ k =>
        simp only [List.getElem?_cons_succ] at hcol hrow
        rw [ih hnd1 hcol hrow]

theorem updateFull_apply [Zero α] {i c0 : Nat} {cols : List Nat} {row : List α}
    {full : SparseMatrix α} (hb : BufferShape i c0 cols full) (hlen : cols.length ≤ row.length)
    (r c : Nat) :
    updateFullJacobianSparse cols row full (i, c0) r c
      = if r = i then scatter cols c0 row c else 0 := by
  unfold updateFullJacobianSparse
  rw [foldl_write_apply]
  by_cases hr : r = i
  · simp only [hr, if_true, scatter]
    cases hlw : lastWrite c c0 (cols.zip row) with
    | some b => rfl
    | none =>
      simp only [Option.getD_none]
      exact hb i c (Or.inr (lastWrite_none_not_mem hlw hlen))
  · simp only [hr, if_false]
    exact hb r c (Or.inl hr)

theorem scatter_untouched [Zero α] {cols : List Nat} {c0 : Nat} {row : List α} {c : Nat}
    (h : ∀ k ∈ cols, c ≠ c0 + k) : scatter cols c0 row c = 0 := by
  unfold scatter
  cases hlw : lastWrite c c0 (cols.zip row) with
  | none => rfl
  | some b =>
    obtain ⟨k, hk, hc⟩ := lastWrite_some_mem hlw
    exact absurd hc (h k hk)

theorem updateFull_shape [Zero α] {i c0 : Nat} {cols : List Nat} {row : List α}
    {full : SparseMatrix α} (hb : BufferShape i c0 cols full) (hlen : cols.length ≤ row.length) :
    BufferShape i c0 cols (updateFullJacobianSparse cols row full (i, c0)) := by
  intro r c h
  rw [updateFull_apply hb hlen]
  split
  · rename_i hr
    rcases h with h | h
    · exact absurd hr h
    · exact scatter_untouched h
  · rfl

theorem gradRow_length [Field α] (coef : α) (d : Vec3 α) (m : DenseMatrix α) (dof : Nat) :
    (gradRow coef d m dof).length = dof := by
  simp [gradRow]

theorem pairJacobian_apply [LinearOrderedField α] {c0 i : Nat} {cd : SelfCollisionData α}
    (h : PairShape c0 i cd) (jac : SparseMatrix α) (r c : Nat) :
    (SelfCollisionConstr.pairJacobian c0 i cd jac).1 r c
      = jac r c + (if r = i then
          scatter cd.jac1.cols c0 (SelfCollisionConstr.jac1Mat cd) c
            - scatter cd.jac2.cols c0 (SelfCollisionConstr.jac2Mat cd) c
        else 0) := by
  obtain ⟨h1, h2, l1, l2⟩ := h
  simp only [SelfCollisionConstr.pairJacobian]
  rw [updateFull_apply h1 (by simp [SelfCollisionConstr.jac1Mat, gradRow_length, l1]),
    updateFull_apply h2 (by simp [SelfCollisionConstr.jac2Mat, gradRow_length, l2])]
  split <;> simp

theorem pairJacobian_shape [LinearOrderedField α] {c0 i : Nat} {cd : SelfCollisionData α}
    (h : PairShape c0 i cd) (jac : SparseMatrix α) :
    PairShape c0 i (SelfCollisionConstr.pairJacobian c0 i cd jac).2 := by
  obtain ⟨h1, h2, l1, l2⟩ := h
  unfold PairShape
  simp only [SelfCollisionConstr.pairJacobian]
  exact ⟨updateFull_shape h1 (by simp [SelfCollisionConstr.jac1Mat, gradRow_length, l1]),
    updateFull_shape h2 (by simp [SelfCollisionConstr.jac2Mat, gradRow_length, l2]), l1, l2⟩

theorem impl_jacobian_rows_before [LinearOrderedField α] (c0 : Nat) :
    ∀ (cds : List (SelfCollisionData α)) (i0 : Nat) (jac : SparseMatrix α),
      (∀ k cd, cds[k]? = some cd → PairShape c0 (i0 + k) cd) →
      ∀ r c, r < i0 → (SelfCollisionConstr.impl_jacobian c0 cds i0 jac).1 r c = jac r c := by
  intro cds
  induction cds with
  | nil => intro i0 jac _ r c _; rfl
  | cons cd rest ih =>
    intro i0 jac hs r c hr
    simp only [SelfCollisionConstr.impl_jacobian]
    rw [ih (i0 + 1) _ (fun k cd1 hk => by
        have := hs (k + 1) cd1 (by simpa using hk)
        rwa [show i0 + (k + 1) = i0 + 1 + k by omega] at this) r c (by omega),
      pairJacobian_apply (by simpa using hs 0 cd (by simp)), if_neg (by omega), add_zero]

theorem impl_jacobian_row [LinearOrderedField α] (c0 : Nat) :
    ∀ (cds : List (SelfCollisionData α)) (i0 : Nat) (jac : SparseMatrix α),
      (∀ k cd, cds[k]? = some cd → PairShape c0 (i0 + k) cd) →
      ∀ k cd, cds[k]? = some cd → ∀ c,
        (SelfCollisionConstr.impl_jacobian c0 cds i0 jac).1 (i0 + k) c
          = jac (i0 + k) c + (scatter cd.jac1.cols c0 (SelfCollisionConstr.jac1Mat cd) c
              - scatter cd.jac2.cols c0 (SelfCollisionConstr.jac2Mat cd) c) := by
  intro cds
  induction cds with
  | nil => intro i0 jac _ k cd hk; simp at hk
  | cons cd0 rest ih =>
    intro i0 jac hs k cd hk c
    have hrest : ∀ k cd1, rest[k]? = some cd1 → PairShape c0 (i0 + 1 + k) cd1 := by
      intro k cd1 hk1
      have := hs (k + 1) cd1 (by simpa using hk1)
      rwa [show i0 + (k + 1) = i0 + 1 + k by omega] at this
    have h0 : PairShape c0 i0 cd0 := by simpa using hs 0 cd0 (by simp)
    simp only [SelfCollisionConstr.impl_jacobian]
    cases k with
    | zero =>
      simp only [List.getElem?_cons_zero, Option.some.injEq] at hk
      subst hk
      simp only [Nat.add_zero]
      rw [impl_jacobian_rows_before c0 rest (i0 + 1) _ hrest i0 c (by omega),
        pairJacobian_apply h0, if_pos rfl]
    | succ k =>
      simp only [List.getElem?_cons_succ] at hk
      rw [show i0 + (k + 1) = i0 + 1 + k by omega, ih (i0 + 1) _ hrest k cd hk c,
        pairJacobian_apply h0, if_neg (by omega), add_zero]

theorem scatter_nodup [Zero α] {cols : List Nat} {c0 : Nat} {row : List α} {k col : Nat}
    (hnd : cols.Nodup) (hcol : cols[k]? = some col) (hk : k < row.length) :
    scatter cols c0 row (c0 + col) = row.getD k 0 := by
  have hrow : row[k]? = some (row.getD k 0) := by
    rw [List.getElem?_eq_getElem hk, List.getD_eq_getElem?_getD, List.getElem?_eq_getElem hk]
    rfl
  unfold scatter
  rw [lastWrite_nodup hnd hcol hrow]
  rfl

theorem impl_jacobian_shape [LinearOrderedField α] (c0 : Nat) :
    ∀ (cds : List (SelfCollisionData α)) (i0 : Nat) (jac : SparseMatrix α),
      (∀ k cd, cds[k]? = some cd → PairShape c0 (i0 + k) cd) →
      ∀ k cd, (SelfCollisionConstr.impl_jacobian c0 cds i0 jac).2[k]? = some cd →
        PairShape c0 (i0 + k) cd := by
  intro cds
  induction cds with
  | nil => intro i0 jac _ k cd hk; simp [SelfCollisionConstr.impl_jacobian] at hk
  | cons cd0 rest ih =>
    intro i0 jac hs k cd hk
    have hrest : ∀ k cd1, rest[k]? = some cd1 → PairShape c0 (i0 + 1 + k) cd1 := by
      intro k cd1 hk1
      have := hs (k + 1) cd1 (by simpa using hk1)
      rwa [show i0 + (k + 1) = i0 + 1 + k by omega] at this
    have h0 : PairShape c0 i0 cd0 := by simpa using hs 0 cd0 (by simp)
    simp only [SelfCollisionConstr.impl_jacobian] at hk
    cases k with
    | zero =>
      simp only [List.getElem?_cons_zero, Option.some.injEq] at hk
      subst hk
      exact pairJacobian_shape h0 jac
    | succ k =>
      simp only [List.getElem?_cons_succ] at hk
      rw [show i0 + (k + 1) = i0 + 1 + k by omega]
      exact ih (i0 + 1) _ hrest k cd hk

theorem gradRow_eq_claimedRow [LinearOrderedField α] (dist : α) (p1 p2 : Vec3 α)
    (jacobian : DenseMatrix α) (dof : Nat) :
    gradRow (copysign2 dist) (p1.sub p2) jacobian dof = claimedRow dist p1 p2 jacobian dof := by
  unfold gradRow claimedRow
  apply List.map_congr_left
  intro k _
  simp only [claimedRowEntry, copysign2, Vec3.sub, DenseMatrix.coeff]
  ring

theorem claimedRow_getD [LinearOrderedField α] (dist : α) (p1 p2 : Vec3 α)
    (jacobian : DenseMatrix α) {dof k : Nat} (hk : k < dof) :
    (claimedRow dist p1 p2 jacobian dof).getD k 0 = claimedRowEntry dist p1 p2 jacobian k := by
  simp [claimedRow, List.getD_eq_getElem?_getD, List.getElem?_map, List.getElem?_range hk]

/-- Claim C7 (self-collision Jacobian combination): starting from the all-zero output
matrix, row `i` of the matrix produced by `SelfCollisionConstr::impl_jacobian` is the
scatter of body 1's row minus the scatter of body 2's row of pair `i`, the row of a
body being `copysign(2, dist) * (p1 - p2)ᵀ * J_lin` with that body's linear Jacobian
block. When each body's columns are pairwise distinct, a column touched only by
body 1 holds body 1's entry, a column touched only by body 2 holds the negation of
body 2's entry, and a column touched by both holds the difference. The step of pair
`i` leaves every other row as it was, and the refreshed buffers keep their shape. -/
theorem self_jacobian_combination [LinearOrderedField α] (qParamsBegin : Nat)
    (cds : List (SelfCollisionData α))
    (hshape : ∀ k cd, cds[k]? = some cd → PairShape qParamsBegin k cd)
    (i : Nat) (cd : SelfCollisionData α) (hi : cds[i]? = some cd) :
    (∀ c, (SelfCollisionConstr.impl_jacobian qParamsBegin cds 0 (fun _ _ => 0)).1 i c
        = scatter cd.jac1.cols qParamsBegin
            (claimedRow cd.dist cd.T_0_p1 cd.T_0_p2 cd.jac1.jacobian cd.jac1.dof) c
          - scatter cd.jac2.cols qParamsBegin
            (claimedRow cd.dist cd.T_0_p1 cd.T_0_p2 cd.jac2.jacobian cd.jac2.dof) c) ∧
      (cd.jac1.cols.Nodup → cd.jac2.cols.Nodup →
        (∀ k1 col, cd.jac1.cols[k1]? = some col → col ∉ cd.jac2.cols →
          (SelfCollisionConstr.impl_jacobian qParamsBegin cds 0 (fun _ _ => 0)).1 i
              (qParamsBegin + col)
            = claimedRowEntry cd.dist cd.T_0_p1 cd.T_0_p2 cd.jac1.jacobian k1) ∧
        (∀ k2 col, cd.jac2.cols[k2]? = some col → col ∉ cd.jac1.cols →
          (SelfCollisionConstr.impl_jacobian qParamsBegin cds 0 (fun _ _ => 0)).1 i
              (qParamsBegin + col)
            = - claimedRowEntry cd.dist cd.T_0_p1 cd.T_0_p2 cd.jac2.jacobian k2) ∧
        (∀ k1 k2 col, cd.jac1.cols[k1]? = some col → cd.jac2.cols[k2]? = some col →
          (SelfCollisionConstr.impl_jacobian qParamsBegin cds 0 (fun _ _ => 0)).1 i
              (qParamsBegin + col)
            = claimedRowEntry cd.dist cd.T_0_p1 cd.T_0_p2 cd.jac1.jacobian k1
              - claimedRowEntry cd.dist cd.T_0_p1 cd.T_0_p2 cd.jac2.jacobian k2)) ∧
      (∀ (jac : SparseMatrix α) r c, r ≠ i →
        (SelfCollisionConstr.pairJacobian qParamsBegin i cd jac).1 r c = jac r c) ∧
      (∀ k cd1,
        (SelfCollisionConstr.impl_jacobian qParamsBegin cds 0 (fun _ _ => 0)).2[k]? = some cd1 →
          PairShape qParamsBegin k cd1) := by
  have hs0 : ∀ k cd, cds[k]? = some cd → PairShape qParamsBegin (0 + k) cd := by
    intro k cd1 hk
    rw [Nat.zero_add]
    exact hshape k cd1 hk
  have hrow : ∀ c, (SelfCollisionConstr.impl_jacobian qParamsBegin cds 0 (fun _ _ => 0)).1 i c
      = scatter cd.jac1.cols qParamsBegin
          (claimedRow cd.dist cd.T_0_p1 cd.T_0_p2 cd.jac1.jacobian cd.jac1.dof) c
        - scatter cd.jac2.cols qParamsBegin
          (claimedRow cd.dist cd.T_0_p1 cd.T_0_p2 cd.jac2.jacobian cd.jac2.dof) c := by
    intro c
    have := impl_jacobian_row qParamsBegin cds 0 (fun _ _ => 0) hs0 i cd hi c
    rw [Nat.zero_add, zero_add, SelfCollisionConstr.jac1Mat, SelfCollisionConstr.jac2Mat,
      gradRow_eq_claimedRow, gradRow_eq_claimedRow] at this
    exact this
  obtain ⟨_, _, l1, l2⟩ := hshape i cd hi
  have lt1 : ∀ {k col}, cd.jac1.cols[k]? = some col → k < cd.jac1.dof := by
    intro k col h
    have := (List.getElem?_eq_some.mp h).1
    omega
  have lt2 : ∀ {k col}, cd.jac2.cols[k]? = some col → k < cd.jac2.dof := by
    intro k col h
    have := (List.getElem?_eq_some.mp h).1
    omega
  have len : ∀ (jacobian : DenseMatrix α) {dof k : Nat}, k < dof →
      k < (claimedRow cd.dist cd.T_0_p1 cd.T_0_p2 jacobian dof).length := by
    intro jacobian dof k h
    simpa [claimedRow] using h
  have untouched : ∀ {cols : List Nat} {col : Nat} (row : List α), col ∉ cols →
      scatter cols qParamsBegin row (qParamsBegin + col) = 0 := by
    intro cols col row h
    apply scatter_untouched
    intro k hk hc
    have : col = k := by omega
    exact h (this ▸ hk)
  refine ⟨hrow, fun nd1 nd2 => ⟨?_, ?_, ?_⟩, ?_, ?_⟩
  · intro k1 col h1 hn
    rw [hrow, scatter_nodup nd1 h1 (len _ (lt1 h1)), untouched _ hn, sub_zero,
      claimedRow_getD _ _ _ _ (lt1 h1)]
  · intro k2 col h2 hn
    rw [hrow, scatter_nodup nd2 h2 (len _ (lt2 h2)), untouched _ hn, zero_sub,
      claimedRow_getD _ _ _ _ (lt2 h2)]
  · intro k1 k2 col h1 h2
    rw [hrow, scatter_nodup nd1 h1 (len _ (lt1 h1)), scatter_nodup nd2 h2 (len _ (lt2 h2)),
      claimedRow_getD _ _ _ _ (lt1 h1), claimedRow_getD _ _ _ _ (lt2 h2)]
  · intro jac r c hr
    rw [pairJacobian_apply (hshape i cd hi), if_neg hr, add_zero]
  · intro k cd1 hk
    have := impl_jacobian_shape qParamsBegin cds 0 (fun _ _ => 0) hs0 k cd1 hk
    rwa [Nat.zero_add] at this

theorem examplePairs_shape :
    ∀ k cd, examplePairs[k]? = some cd → PairShape 0 k cd := by
  intro k cd h
  rcases k with _ | _ | k
  · simp only [examplePairs, List.getElem?_cons_zero, Option.some.injEq] at h
    subst h
    exact ⟨fun _ _ _ => rfl, fun _ _ _ => rfl, rfl, rfl⟩
  · simp only [examplePairs, List.getElem?_cons_succ, List.getElem?_cons_zero,
      Option.some.injEq] at h
    subst h
    exact ⟨fun _ _ _ => rfl, fun _ _ _ => rfl, rfl, rfl⟩
  · simp [examplePairs] at h

theorem self_jacobian_combination_witness :
    ((SelfCollisionConstr.impl_jacobian 0 examplePairs 0 (fun _ _ => 0)).1 0 (0 + 1)
        = 2 * ((2 - 1) * 2 + (1 - 3) * 0 + (0 - 0) * 0) ∧
      (SelfCollisionConstr.impl_jacobian 0 examplePairs 0 (fun _ _ => 0)).1 0 (0 + 2)
        = - (2 * ((2 - 1) * 5 + (1 - 3) * 1 + (0 - 0) * 0)) ∧
      (SelfCollisionConstr.impl_jacobian 0 examplePairs 0 (fun _ _ => 0)).1 0 (0 + 0)
        = 2 * ((2 - 1) * 3 + (1 - 3) * 1 + (0 - 0) * 0)
          - 2 * ((2 - 1) * 1 + (1 - 3) * 0 + (0 - 0) * 0)) ∧
    ((SelfCollisionConstr.impl_jacobian 0 examplePairs 0 (fun _ _ => 0)).1 1 (0 + 1)
        = -2 * ((0 - 0) * 0 + (1 - 3) * 1 + (1 - 0) * 0) ∧
      (SelfCollisionConstr.impl_jacobian 0 examplePairs 0 (fun _ _ => 0)).1 1 (0 + 2)
        = - (-2 * ((0 - 0) * 0 + (1 - 3) * 1 + (1 - 0) * 3)) ∧
      (SelfCollisionConstr.impl_jacobian 0 examplePairs 0 (fun _ _ => 0)).1 1 (0 + 0)
        = -2 * ((0 - 0) * 0 + (1 - 3) * 1 + (1 - 0) * 1)
          - -2 * ((0 - 0) * 0 + (1 - 3) * 4 + (1 - 0) * 0)) :=
  ⟨⟨(((self_jacobian_combination 0 examplePairs examplePairs_shape 0 _ rfl).2.1
        (by decide) (by decide)).1 1 1 rfl (by decide)).trans (by decide!),
      (((self_jacobian_combination 0 examplePairs examplePairs_shape 0 _ rfl).2.1
        (by decide) (by decide)).2.1 1 2 rfl (by decide)).trans (by decide!),
      (((self_jacobian_combination 0 examplePairs examplePairs_shape 0 _ rfl).2.1
        (by decide) (by decide)).2.2 0 0 0 rfl rfl).trans (by decide!)⟩,
    ⟨(((self_jacobian_combination 0 examplePairs examplePairs_shape 1 _ rfl).2.1
        (by decide) (by decide)).1 1 1 rfl (by decide)).trans (by decide!),
      (((self_jacobian_combination 0 examplePairs examplePairs_shape 1 _ rfl).2.1
        (by decide) (by decide)).2.1 1 2 rfl (by decide)).trans (by decide!),
      (((self_jacobian_combination 0 examplePairs examplePairs_shape 1 _ rfl).2.1
        (by decide) (by decide)).2.2 0 0 0 rfl rfl).trans (by decide!)⟩⟩

theorem gradRow_getD [Field α] (coef : α) (d : Vec3 α) (m : DenseMatrix α) {dof j : Nat}
    (hj : j < dof) :
    (gradRow coef d m dof).getD j 0
      = coef * d.x * m.coeff 3 j + coef * d.y * m.coeff 4 j + coef * d.z * m.coeff 5 j := by
  simp [gradRow, List.getD_eq_getElem?_getD, List.getElem?_map, List.getElem?_range hj]

theorem copysign2_mul (sgn : ℝ) (hsgn : sgn = 1 ∨ sgn = -1) (d : Vec3 ℝ) (a : ℝ)
    (ha : a = d.x ∨ a = d.y ∨ a = d.z) :
    copysign2 (sgn * d.normSq) * a = sgn * (2 * a) := by
  have hx := mul_self_nonneg d.x
  have hy := mul_self_nonneg d.y
  have hz := mul_self_nonneg d.z
  by_cases h0 : d.normSq = 0
  · have ha0 : a = 0 := by
      simp only [Vec3.normSq] at h0
      have h1 : d.x * d.x = 0 := by linarith
      have h2 : d.y * d.y = 0 := by linarith
      have h3 : d.z * d.z = 0 := by linarith
      rcases ha with rfl | rfl | rfl
      · exact mul_self_eq_zero.mp h1
      · exact mul_self_eq_zero.mp h2
      · exact mul_self_eq_zero.mp h3
    simp [ha0]
  · have hpos : 0 < d.normSq := by
      have : 0 ≤ d.normSq := by simp only [Vec3.normSq]; linarith
      exact lt_of_le_of_ne this (Ne.symm h0)
    rcases hsgn with rfl | rfl
    · have : ¬ (1 * d.normSq < 0) := by linarith
      simp only [copysign2, if_neg this]
      ring
    · have : (-1 : ℝ) * d.normSq < 0 := by linarith
      simp only [copysign2, if_pos this]
      ring

/-- Claim C3 as amended (analytic Jacobian of the environment constraint): over the
reals, let the environment witness point be fixed and the body witness point `p t`
move, as local degree of freedom `j` varies, with the velocity given by column `j` of
the linear block (rows 3 to 5) of the body Jacobian. When the residual is the signed
squared distance `sgn * |p t - pEnv|²`, as the comments of `distance` and
`closestPoints` say, entry `j` of the row `copysign(2, dist) * dᵀ * J` computed by
`EnvCollisionConstr::impl_jacobian` is the derivative of the residual. -/
theorem env_jacobian_derivative (cd : EnvCollisionData ℝ) (p : ℝ → Vec3 ℝ) (sgn t0 : ℝ)
    (j : Nat) (hsgn : sgn = 1 ∨ sgn = -1) (hp : cd.T_0_p = p t0)
    (hdist : cd.dist = signedSquaredDistance sgn (p t0) cd.pEnv) (hj : j < cd.jac.dof)
    (hx : HasDerivAt (fun t => (p t).x) (cd.jac.jacobian.coeff 3 j) t0)
    (hy : HasDerivAt (fun t => (p t).y) (cd.jac.jacobian.coeff 4 j) t0)
    (hz : HasDerivAt (fun t => (p t).z) (cd.jac.jacobian.coeff 5 j) t0) :
    HasDerivAt (fun t => signedSquaredDistance sgn (p t) cd.pEnv)
      ((EnvCollisionConstr.jacMat cd).getD j 0) t0 := by
  have hd := ((((hx.sub_const cd.pEnv.x).mul (hx.sub_const cd.pEnv.x)).add
    ((hy.sub_const cd.pEnv.y).mul (hy.sub_const cd.pEnv.y))).add
    ((hz.sub_const cd.pEnv.z).mul (hz.sub_const cd.pEnv.z))).const_mul sgn
  have hval : (EnvCollisionConstr.jacMat cd).getD j 0
      = sgn * (cd.jac.jacobian.coeff 3 j * ((p t0).x - cd.pEnv.x)
          + ((p t0).x - cd.pEnv.x) * cd.jac.jacobian.coeff 3 j
        + (cd.jac.jacobian.coeff 4 j * ((p t0).y - cd.pEnv.y)
          + ((p t0).y - cd.pEnv.y) * cd.jac.jacobian.coeff 4 j)
        + (cd.jac.jacobian.coeff 5 j * ((p t0).z - cd.pEnv.z)
          + ((p t0).z - cd.pEnv.z) * cd.jac.jacobian.coeff 5 j)) := by
    rw [EnvCollisionConstr.jacMat, gradRow_getD _ _ _ hj, hdist, hp, signedSquaredDistance,
      copysign2_mul sgn hsgn _ _ (Or.inl rfl), copysign2_mul sgn hsgn _ _ (Or.inr (Or.inl rfl)),
      copysign2_mul sgn hsgn _ _ (Or.inr (Or.inr rfl))]
    simp only [Vec3.sub]
    ring
  rw [hval]
  exact hd

theorem env_jacobian_derivative_witness :
    signedSquaredDistance (1 : ℝ) ⟨1 / 10, 0, 0⟩ ⟨0, 0, 0⟩ = 1 / 100 ∧
      (EnvCollisionConstr.jacMat (⟨1 / 100, ⟨1 / 10, 0, 0⟩, ⟨0, 0, 0⟩,
        ⟨1, [[0], [0], [0], [1], [0], [0]], [0]⟩⟩ : EnvCollisionData ℝ)).getD 0 0 = 1 / 5 ∧
      HasDerivAt (fun t : ℝ => signedSquaredDistance 1 (⟨t, 0, 0⟩ : Vec3 ℝ) ⟨0, 0, 0⟩)
        ((EnvCollisionConstr.jacMat (⟨1 / 100, ⟨1 / 10, 0, 0⟩, ⟨0, 0, 0⟩,
          ⟨1, [[0], [0], [0], [1], [0], [0]], [0]⟩⟩ : EnvCollisionData ℝ)).getD 0 0) (1 / 10) :=
  ⟨by norm_num [signedSquaredDistance, Vec3.sub, Vec3.normSq],
    by norm_num [EnvCollisionConstr.jacMat, gradRow, copysign2, Vec3.sub, DenseMatrix.coeff],
    env_jacobian_derivative
      (⟨1 / 100, ⟨1 / 10, 0, 0⟩, ⟨0, 0, 0⟩, ⟨1, [[0], [0], [0], [1], [0], [0]], [0]⟩⟩ :
        EnvCollisionData ℝ)
      (fun t => ⟨t, 0, 0⟩) 1 (1 / 10) 0 (Or.inl rfl) rfl
      (by norm_num [signedSquaredDistance, Vec3.sub, Vec3.normSq]) (by decide)
      (by simpa [DenseMatrix.coeff] using hasDerivAt_id ((1 : ℝ) / 10))
      (by simpa [DenseMatrix.coeff] using hasDerivAt_const ((1 : ℝ) / 10) (0 : ℝ))
      (by simpa [DenseMatrix.coeff] using hasDerivAt_const ((1 : ℝ) / 10) (0 : ℝ))⟩

theorem signedDistance_line (t : ℝ) (ht : 0 < t) :
    signedDistance Real.sqrt 1 (⟨t, 0, 0⟩ : Vec3 ℝ) ⟨0, 0, 0⟩ = t := by
  simp only [signedDistance, Vec3.sub, Vec3.normSq, sub_zero, mul_zero, add_zero, one_mul]
  exact Real.sqrt_mul_self (le_of_lt ht)

/-- Claim C3 as stated fails in its end-to-end scenario: one pair, one joint moving
the body witness point along the x axis, environment witness point at the origin,
gap 0.1. With the residual read as the signed distance, `compute` returns `[0.1]`,
the Jacobian row is `[0.2]`, and the derivative of the residual with respect to the
joint parameter is 1, not 0.2. -/
theorem env_jacobian_not_derivative_of_distance :
    signedDistance Real.sqrt 1 (⟨1 / 10, 0, 0⟩ : Vec3 ℝ) ⟨0, 0, 0⟩ = 1 / 10 ∧
      EnvCollisionConstr.impl_compute [(⟨1 / 10, ⟨1 / 10, 0, 0⟩, ⟨0, 0, 0⟩,
        ⟨1, [[0], [0], [0], [1], [0], [0]], [0]⟩⟩ : EnvCollisionData ℝ)] = [1 / 10] ∧
      EnvCollisionConstr.jacMat (⟨1 / 10, ⟨1 / 10, 0, 0⟩, ⟨0, 0, 0⟩,
        ⟨1, [[0], [0], [0], [1], [0], [0]], [0]⟩⟩ : EnvCollisionData ℝ) = [1 / 5] ∧
      HasDerivAt (fun t : ℝ => signedDistance Real.sqrt 1 (⟨t, 0, 0⟩ : Vec3 ℝ) ⟨0, 0, 0⟩)
        1 (1 / 10) ∧
      ¬ HasDerivAt (fun t : ℝ => signedDistance Real.sqrt 1 (⟨t, 0, 0⟩ : Vec3 ℝ) ⟨0, 0, 0⟩)
        (1 / 5) (1 / 10) := by
  have hder : HasDerivAt
      (fun t : ℝ => signedDistance Real.sqrt 1 (⟨t, 0, 0⟩ : Vec3 ℝ) ⟨0, 0, 0⟩) 1 (1 / 10) := by
    refine (hasDerivAt_id ((1 : ℝ) / 10)).congr_of_eventuallyEq ?_
    filter_upwards [lt_mem_nhds (show (0 : ℝ) < 1 / 10 by norm_num)] with t ht
    exact signedDistance_line t ht
  refine ⟨signedDistance_line _ (by norm_num), rfl, ?_, hder, ?_⟩
  · norm_num [EnvCollisionConstr.jacMat, gradRow, copysign2, Vec3.sub, DenseMatrix.coeff,
      List.range_succ]
  · intro h
    have := h.unique hder
    norm_num at this

end CollisionLemmas

end pg
